import Mathlib

/-!
Verification of the pdfextractor LLM-orchestration core against its
natural-language specification.  Python strings are modelled as `List Char`,
Python `dict`/`json` values as an explicit `Json` inductive, machine floats
arising from JSON number literals as exact rationals, and wall-clock time in
the rate limiter as an explicit rational-valued clock threaded through the
functions.  External collaborators (the provider SDK call, the filesystem,
the tiktoken tokenizer) are passed in as function parameters.
-/

namespace PdfExtractor

abbrev Str := List Char

/-- The three-backtick Markdown fence marker used by the response-cleaning
code in `app/tools/analysis_tools.py`. -/
def bt : Str := ['`', '`', '`']

/-- The seven-character "```json" marker used by the second cleaning variant
(`extract_daily_balances`, `analyze_monthly_financials`). -/
def btJson : Str := ['`', '`', '`', 'j', 's', 'o', 'n']

/-- The four-character language tag "json" checked with `startswith` in
`check_nsf` / `check_statement_continuity`. -/
def jsonTag : Str := ['j', 's', 'o', 'n']

/-- Whitespace characters removed by Python `str.strip()` (ASCII subset;
the source never feeds non-ASCII whitespace to `strip`). -/
def pyWs (c : Char) : Bool :=
  c = ' ' || c = '\t' || c = '\n' || c = '\r' || c = '\x0b' || c = '\x0c'

/-- Left part of Python `str.strip()`. -/
def stripL (s : Str) : Str := s.dropWhile pyWs

/-- Right part of Python `str.strip()`. -/
def stripR (s : Str) : Str := (s.reverse.dropWhile pyWs).reverse

/-- Python `str.strip()`: drop leading and trailing whitespace. -/
def pyStrip (s : Str) : Str := stripR (stripL s)

/-- Python substring test `sep in s` (occurrence of a contiguous
subsequence). -/
def hasSeq (sep : Str) : Str → Bool
  | [] => sep.isPrefixOf []
  | c :: cs => sep.isPrefixOf (c :: cs) || hasSeq sep cs

/-- Fuelled worker for Python `str.split(sep)` (leftmost, non-overlapping
occurrences); the fuel is an upper bound on the input length, so the public
wrapper `splitSeq` never exhausts it. -/
def splitSeqGo (sep : Str) : Nat → Str → List Str
  | _, [] => [[]]
  | 0, cs => [cs]
  | fuel + 1, c :: cs =>
    if sep.isPrefixOf (c :: cs) then
      [] :: splitSeqGo sep fuel ((c :: cs).drop sep.length)
    else
      match splitSeqGo sep fuel cs with
      | [] => [[c]]
      | p :: ps => (c :: p) :: ps

/-- Python `str.split(sep)` for a non-empty separator. -/
def splitSeq (sep cs : Str) : List Str := splitSeqGo sep cs.length cs

/-- The response-cleaning transformation of `check_nsf` /
`check_statement_continuity` (analysis_tools.py lines 65-73): strip the
reply, and if it contains a ``` fence with at least three split parts, take
the fenced body, removing a leading "json" language tag when present. -/
def cleanResponse (resp : Str) : Str :=
  let cleaned := pyStrip resp
  if hasSeq bt cleaned then
    let parts := splitSeq bt cleaned
    if 3 ≤ parts.length then
      let c2 := parts.getD 1 []
      if jsonTag.isPrefixOf c2 then pyStrip (c2.drop 4) else c2
    else cleaned
  else cleaned

/-!
## JSON values

Python `json.loads` results are modelled by the inductive `Json`.  Arrays
and objects are represented by explicit cons-chains (rather than nested
`List` fields) so that all recursions below are structural and all concrete
computations reduce inside the kernel.  Integer-valued literals map to
`num true`, float-valued ones to `num false`, both carrying the exact
rational value of the literal (CPython's float rounding of >17-significant-
digit literals is not modelled; none of the statements below depend on it).
-/
inductive Json where
  | null : Json
  | bool (b : Bool) : Json
  | num (int : Bool) (val : ℚ) : Json
  | str (s : Str) : Json
  | arrNil : Json
  | arrCons (hd tl : Json) : Json
  | objNil : Json
  | objCons (key : Str) (val tl : Json) : Json
  deriving DecidableEq

def Json.arrOfList : List Json → Json
  | [] => .arrNil
  | j :: js => .arrCons j (arrOfList js)

def Json.toArrList : Json → List Json
  | .arrCons j t => j :: t.toArrList
  | _ => []

def Json.objOfList : List (Str × Json) → Json
  | [] => .objNil
  | (k, v) :: t => .objCons k v (objOfList t)

/-- Key lookup in an object chain (Python `d[k]` / `k in d` on a dict). -/
def Json.lookupKey : Json → Str → Option Json
  | .objCons k v t, key => if k = key then some v else t.lookupKey key
  | _, _ => none

def Json.getNum (j : Json) (k : Str) : Option ℚ :=
  match j.lookupKey k with
  | some (.num _ q) => some q
  | _ => none

/-- Python truthiness of a json value (`if not x`). -/
def pyFalsy : Json → Bool
  | .null => true
  | .bool b => !b
  | .num _ q => decide (q = 0)
  | .str s => s.isEmpty
  | .arrNil => true
  | .arrCons _ _ => false
  | .objNil => true
  | .objCons _ _ _ => false

/-!
## `json.loads` (strict mode, as the source calls it)

A recursive-descent parser over `List Char` with an explicit fuel argument
(bounded by the input length, which bounds nesting depth, so the fuel can
never run out on the inputs the wrapper passes).  Error messages carry the
CPython error-class text without the line/column suffix.  Deviations from
CPython, none of which the theorems depend on: `NaN`/`Infinity` literals
are rejected (CPython accepts them by default), and `\uXXXX` surrogate
pairs are not combined.
-/
def jsonWsChar (c : Char) : Bool :=
  c = ' ' || c = '\t' || c = '\n' || c = '\r'

def skipWs (cs : Str) : Str := cs.dropWhile jsonWsChar

def hexVal (c : Char) : Option Nat :=
  if '0' ≤ c ∧ c ≤ '9' then some (c.toNat - 48)
  else if 'a' ≤ c ∧ c ≤ 'f' then some (c.toNat - 87)
  else if 'A' ≤ c ∧ c ≤ 'F' then some (c.toNat - 55)
  else none

def escChar (c : Char) : Option Char :=
  if c = '"' then some '"'
  else if c = '\\' then some '\\'
  else if c = '/' then some '/'
  else if c = 'b' then some '\x08'
  else if c = 'f' then some '\x0c'
  else if c = 'n' then some '\n'
  else if c = 'r' then some '\r'
  else if c = 't' then some '\t'
  else none

/-- Body of a JSON string literal, after the opening quote. -/
def parseStringBody : Str → Except Str (Str × Str)
  | [] => .error "Unterminated string".data
  | c :: cs =>
    if c = '"' then .ok ([], cs)
    else if c = '\\' then
      match cs with
      | [] => .error "Unterminated string".data
      | e :: cs2 =>
        if e = 'u' then
          match cs2 with
          | h1 :: h2 :: h3 :: h4 :: cs3 =>
            match hexVal h1, hexVal h2, hexVal h3, hexVal h4 with
            | some a, some b, some c3, some d => do
              let (s, rest) ← parseStringBody cs3
              .ok (Char.ofNat (((a * 16 + b) * 16 + c3) * 16 + d) :: s, rest)
            | _, _, _, _ => .error "Invalid \\uXXXX escape".data
          | _ => .error "Invalid \\uXXXX escape".data
        else
          match escChar e with
          | some ec => do
            let (s, rest) ← parseStringBody cs2
            .ok (ec :: s, rest)
          | none => .error "Invalid \\escape".data
    else if c.toNat < 32 then .error "Invalid control character".data
    else do
      let (s, rest) ← parseStringBody cs
      .ok (c :: s, rest)

def digitsToNat (ds : Str) : Nat :=
  ds.foldl (fun a c => a * 10 + (c.toNat - 48)) 0

/-- A JSON number literal, Python regex `(-?(?:0|[1-9]\d*))(\.\d+)?([eE][-+]?\d+)?`. -/
def parseNumber (cs : Str) : Except Str (Json × Str) :=
  let (neg, cs1) := match cs with
    | '-' :: t => (true, t)
    | _ => (false, cs)
  match cs1 with
  | [] => .error "Expecting value".data
  | d :: tl =>
    if ¬ d.isDigit then .error "Expecting value".data
    else
      let (ip, rest1) := if d = '0' then ([d], tl) else (cs1.takeWhile Char.isDigit, cs1.dropWhile Char.isDigit)
      let (fp, rest2) : Option Str × Str :=
        match rest1 with
        | '.' :: t =>
          let ds := t.takeWhile Char.isDigit
          if ds = [] then (none, rest1) else (some ds, t.dropWhile Char.isDigit)
        | _ => (none, rest1)
      let (ep, rest3) : Option (Bool × Str) × Str :=
        match rest2 with
        | e :: t =>
          if e = 'e' ∨ e = 'E' then
            let (es, t2) : Bool × Str := match t with
              | '+' :: u => (false, u)
              | '-' :: u => (true, u)
              | _ => (false, t)
            let ds := t2.takeWhile Char.isDigit
            if ds = [] then (none, rest2) else (some (es, ds), t2.dropWhile Char.isDigit)
          else (none, rest2)
        | [] => (none, rest2)
      let fracDigits := fp.getD []
      let mant0 : Int := (digitsToNat (ip ++ fracDigits) : Int)
      let mant : Int := if neg then -mant0 else mant0
      let exp10 : Int :=
        (match ep with
         | some (s, ds) => if s then -(digitsToNat ds : Int) else (digitsToNat ds : Int)
         | none => 0) - fracDigits.length
      let q : ℚ :=
        if 0 ≤ exp10 then mkRat (mant * Int.ofNat (10 ^ exp10.toNat)) 1
        else mkRat mant (10 ^ (-exp10).toNat)
      .ok (.num (fp.isNone && ep.isNone) q, rest3)

/-- Duplicate object keys: CPython dicts keep the first position and the
last value. -/
def insertField : List (Str × Json) → Str → Json → List (Str × Json)
  | [], k, v => [(k, v)]
  | (k0, v0) :: t, k, v =>
    if k0 = k then (k0, v) :: t else (k0, v0) :: insertField t k v

mutual

def parseVal : Nat → Str → Except Str (Json × Str)
  | 0, _ => .error "Recursion limit".data
  | fuel + 1, cs =>
    match skipWs cs with
    | [] => .error "Expecting value".data
    | c :: rest =>
      if c = '\x7b' then
        match skipWs rest with
        | '\x7d' :: rest2 => .ok (Json.objNil, rest2)
        | _ => parseObjFields fuel [] rest
      else if c = '[' then
        match skipWs rest with
        | ']' :: rest2 => .ok (Json.arrNil, rest2)
        | _ => parseArrElems fuel [] rest
      else if c = '"' then do
        let (s, rest1) ← parseStringBody rest
        .ok (Json.str s, rest1)
      else if c = 't' then
        if ['r', 'u', 'e'].isPrefixOf rest then .ok (Json.bool true, rest.drop 3)
        else .error "Expecting value".data
      else if c = 'f' then
        if ['a', 'l', 's', 'e'].isPrefixOf rest then .ok (Json.bool false, rest.drop 4)
        else .error "Expecting value".data
      else if c = 'n' then
        if ['u', 'l', 'l'].isPrefixOf rest then .ok (Json.null, rest.drop 3)
        else .error "Expecting value".data
      else if c = '-' ∨ c.isDigit then parseNumber (c :: rest)
      else .error "Expecting value".data

def parseObjFields : Nat → List (Str × Json) → Str → Except Str (Json × Str)
  | 0, _, _ => .error "Recursion limit".data
  | fuel + 1, acc, cs =>
    match skipWs cs with
    | '"' :: rest => do
      let (k, rest1) ← parseStringBody rest
      match skipWs rest1 with
      | ':' :: rest2 => do
        let (v, rest3) ← parseVal fuel rest2
        let acc2 := insertField acc k v
        match skipWs rest3 with
        | ',' :: rest4 => parseObjFields fuel acc2 rest4
        | '\x7d' :: rest4 => .ok (Json.objOfList acc2, rest4)
        | _ => .error "Expecting delimiter".data
      | _ => .error "Expecting colon".data
    | _ => .error "Expecting property name".data

def parseArrElems : Nat → List Json → Str → Except Str (Json × Str)
  | 0, _, _ => .error "Recursion limit".data
  | fuel + 1, acc, cs => do
    let (v, rest) ← parseVal fuel cs
    match skipWs rest with
    | ',' :: rest2 => parseArrElems fuel (acc ++ [v]) rest2
    | ']' :: rest2 => .ok (Json.arrOfList (acc ++ [v]), rest2)
    | _ => .error "Expecting delimiter".data

end

instance {ε α : Type} [DecidableEq ε] [DecidableEq α] : DecidableEq (Except ε α) := fun x y =>
  match x, y with
  | .ok a, .ok b =>
    if h : a = b then isTrue (by rw [h]) else isFalse (by intro hc; cases hc; exact h rfl)
  | .error a, .error b =>
    if h : a = b then isTrue (by rw [h]) else isFalse (by intro hc; cases hc; exact h rfl)
  | .ok _, .error _ => isFalse (by intro hc; cases hc)
  | .error _, .ok _ => isFalse (by intro hc; cases hc)

/-- Python `json.loads`: parse one value, then require only whitespace
after it. -/
def jsonParse (cs : Str) : Except Str Json := do
  let (v, rest) ← parseVal (cs.length + 1) cs
  if skipWs rest = [] then .ok v else .error "Extra data".data

/-!
## `json.dumps` (default arguments, as the source calls it)

Default separators `", "` / `": "`, `ensure_ascii=True`.  Integer values
print in decimal; float values print as a plain decimal expansion (CPython's
shortest-repr rounding and its switch to exponent notation for very
large/small magnitudes are not modelled; no statement below serialises such
a value).
-/
def digitChar (n : Nat) : Char := Char.ofNat (48 + n)

def natToDigitsGo : Nat → Nat → Str
  | 0, _ => []
  | _ + 1, 0 => []
  | fuel + 1, n => natToDigitsGo fuel (n / 10) ++ [digitChar (n % 10)]

def natToDigits (n : Nat) : Str :=
  if n = 0 then ['0'] else natToDigitsGo (n + 1) n

def intToDigits (i : Int) : Str :=
  if i < 0 then '-' :: natToDigits i.natAbs else natToDigits i.natAbs

/-- Multiplicity of `p` in `n` (fuelled). -/
def factorCount (p : Nat) : Nat → Nat → Nat
  | 0, _ => 0
  | fuel + 1, n => if n % p = 0 ∧ n ≠ 0 ∧ 1 < p then factorCount p fuel (n / p) + 1 else 0

/-- Decimal expansion of a rational whose reduced denominator is of the form
`2^a * 5^b` (every value produced by the JSON number grammar is of this
form); other denominators fall back to a `num/den` rendering. -/
def ratToDecimal (q : ℚ) : Str :=
  let den := q.den
  let a := factorCount 2 den den
  let b := factorCount 5 den den
  if den = 2 ^ a * 5 ^ b then
    let k := max a b
    let scale : Nat := (2 ^ (k - a) * 5 ^ (k - b))
    let m : Int := q.num * Int.ofNat scale
    let digits := natToDigits m.natAbs
    let sign : Str := if m < 0 then ['-'] else []
    let ip : Str := if digits.length ≤ k then ['0'] else digits.take (digits.length - k)
    let fpRaw : Str := if digits.length ≤ k
      then List.replicate (k - digits.length) '0' ++ digits
      else digits.drop (digits.length - k)
    let fp : Str := if k = 0 then ['0'] else fpRaw
    sign ++ ip ++ ['.'] ++ fp
  else intToDigits q.num ++ ['/'] ++ natToDigits q.den

def hexDigitChar (n : Nat) : Char :=
  if n < 10 then Char.ofNat (48 + n) else Char.ofNat (87 + n)

def hex4 (n : Nat) : Str :=
  [hexDigitChar (n / 4096 % 16), hexDigitChar (n / 256 % 16),
   hexDigitChar (n / 16 % 16), hexDigitChar (n % 16)]

/-- `ensure_ascii` escaping of one character inside a dumped string. -/
def escapeJsonChar (c : Char) : Str :=
  if c = '"' then ['\\', '"']
  else if c = '\\' then ['\\', '\\']
  else if c = '\n' then ['\\', 'n']
  else if c = '\t' then ['\\', 't']
  else if c = '\r' then ['\\', 'r']
  else if c = '\x08' then ['\\', 'b']
  else if c = '\x0c' then ['\\', 'f']
  else if c.toNat < 32 ∨ 127 ≤ c.toNat then
    if c.toNat < 65536 then '\\' :: 'u' :: hex4 c.toNat
    else
      let v := c.toNat - 65536
      ('\\' :: 'u' :: hex4 (55296 + v / 1024)) ++ ('\\' :: 'u' :: hex4 (56320 + v % 1024))
  else [c]

def dumpStr (s : Str) : Str := '"' :: (s.map escapeJsonChar).flatten ++ ['"']

/-- One structural recursion serialising values (mode 0), array tails
(mode 1) and object tails (mode 2). -/
def dumpsAux : Nat → Json → Str
  | 1, .arrCons h t => ',' :: ' ' :: (dumpsAux 0 h ++ dumpsAux 1 t)
  | 1, _ => []
  | 2, .objCons k v t => ',' :: ' ' :: (dumpStr k ++ ':' :: ' ' :: dumpsAux 0 v ++ dumpsAux 2 t)
  | 2, _ => []
  | _, .null => "null".data
  | _, .bool true => "true".data
  | _, .bool false => "false".data
  | _, .num i q => if i ∧ q.den = 1 then intToDigits q.num else ratToDecimal q
  | _, .str s => dumpStr s
  | _, .arrNil => "[]".data
  | _, .arrCons h t => '[' :: (dumpsAux 0 h ++ dumpsAux 1 t) ++ [']']
  | _, .objNil => "\x7b\x7d".data
  | _, .objCons k v t =>
    '\x7b' :: (dumpStr k ++ ':' :: ' ' :: dumpsAux 0 v ++ dumpsAux 2 t) ++ ['\x7d']

/-- Python `json.dumps` with its default arguments. -/
def pyDumps (j : Json) : Str := dumpsAux 0 j

/-!
## `check_nsf` (analysis_tools.py lines 24-114)

The tool's post-LLM processing: validate emptiness, clean, parse, check the
schema, and — in the catch-all `except` — return a zero-filled placeholder
object carrying `str(e)`.  Python dynamic-typing errors (`TypeError`,
`KeyError`) are modelled as `Except.error` with abbreviated messages; the
`ValueError` texts match the source.
-/
/-- Python `key in x` for a string key (`in` on dict/list/str; `TypeError`
on non-iterables). -/
def pyMember (key : Str) : Json → Except Str Bool
  | .objCons k _ t => if k = key then .ok true else pyMember key t
  | .objNil => .ok false
  | .arrNil => .ok false
  | .arrCons h t => if h = Json.str key then .ok true else pyMember key t
  | .str s => .ok (hasSeq key s)
  | _ => .error "argument is not iterable".data

/-- Python `x[key]` subscription for a string key. -/
def pyGetItem (j : Json) (key : Str) : Except Str Json :=
  match j with
  | .objCons _ _ _ =>
    match j.lookupKey key with
    | some v => .ok v
    | none => .error ("KeyError: ".data ++ key)
  | .objNil => .error ("KeyError: ".data ++ key)
  | _ => .error "TypeError: not subscriptable".data

/-- Python iteration `for x in j` (list elements, string characters, dict
keys; `TypeError` otherwise). -/
def pyIterElems : Json → Except Str (List Json)
  | .arrNil => .ok []
  | .arrCons h t => do
    let rest ← pyIterElems t
    .ok (h :: rest)
  | .str s => .ok (s.map fun c => Json.str [c])
  | .objNil => .ok []
  | .objCons k _ t => do
    let rest ← pyIterElems t
    .ok (Json.str k :: rest)
  | _ => .error "TypeError: not iterable".data

/-- The numeric format specifier `,.2f` applied on line 96 succeeds only for numbers
(Python `bool` is an `int`). -/
def pyNumericFormatOk : Json → Except Str Unit
  | .num _ _ => .ok ()
  | .bool _ => .ok ()
  | _ => .error "Unknown format code f".data

def requireField (data : Json) (f : Str) : Except Str Unit := do
  let m ← pyMember f data
  if m then .ok () else .error ("Missing required field: ".data ++ f)

def checkIncidents : List Json → Except Str Unit
  | [] => .ok ()
  | inc :: rest => do
    let m1 ← pyMember "date".data inc
    if m1 then do
      let m2 ← pyMember "amount".data inc
      if m2 then checkIncidents rest
      else .error "Missing field amount in NSF incident".data
    else .error "Missing field date in NSF incident".data

/-- The zero-filled placeholder returned by `check_nsf`'s outer `except`
(lines 106-114). -/
def nsfErrorDefault (msg : Str) : Str :=
  pyDumps (Json.objOfList
    [("error".data, Json.str msg),
     ("nsf_incidents".data, Json.arrNil),
     ("total_fees".data, Json.num true (mkRat 0 1)),
     ("incident_count".data, Json.num true (mkRat 0 1))])

/-- The body of `check_nsf`'s outer `try` (lines 51-104), as a function of
the raw model reply. -/
def checkNsfCore (response : Str) : Except Str Str :=
  if response.isEmpty then .error "Empty response from LLM".data
  else
    match jsonParse (cleanResponse response) with
    | .error e => .error ("Invalid JSON response: ".data ++ e)
    | .ok data => do
      requireField data "nsf_incidents".data
      requireField data "total_fees".data
      requireField data "incident_count".data
      let incidents ← pyGetItem data "nsf_incidents".data
      let elems ← pyIterElems incidents
      checkIncidents elems
      let tf ← pyGetItem data "total_fees".data
      pyNumericFormatOk tf
      .ok (cleanResponse response)

/-- `check_nsf` as observed by its caller: the outer `except Exception`
turns every failure into the zero-filled placeholder. -/
def checkNsf (response : Str) : Str :=
  match checkNsfCore response with
  | .ok s => s
  | .error e => nsfErrorDefault e

/-!
## RateLimiter (app/services/rate_limiter.py)

`time.time()` / `time.sleep()` are modelled by an explicit rational-valued
clock: `checkLimits` receives the clock value at entry and returns the
clock value at which the call proceeds (sleeps advance the clock by exactly
the requested duration; the real clock can only run later, never earlier).
-/
structure RateLimitConfig where
  requests_per_minute : Int
  tokens_per_minute : Int
  min_request_interval : ℚ

structure RateLimiterState where
  last_request_time : ℚ
  request_count : Int
  token_count : Int
  last_reset : ℚ
  deriving DecidableEq

/-- `RateLimiter._reset_if_needed` (lines 24-31): zero both counters and
restamp the window start if at least 60 seconds have passed. -/
def resetIfNeeded (s : RateLimiterState) (now : ℚ) : RateLimiterState :=
  if 60 ≤ now - s.last_reset then
    { s with request_count := 0, token_count := 0, last_reset := now }
  else s

/-- The sleep-until-window-reset block duplicated at lines 46-51 and 53-59:
sleep for `60 - (current_time - last_reset)` when positive, then run
`_reset_if_needed` at the new clock. -/
def windowSleep (s : RateLimiterState) (current_time t : ℚ) :
    RateLimiterState × ℚ :=
  let sleep_time := 60 - (current_time - s.last_reset)
  if 0 < sleep_time then (resetIfNeeded s (t + sleep_time), t + sleep_time)
  else (s, t)

/-- Request-limit check, token-limit check and counter update of
`check_limits` (lines 45-64), after the entry reset and the
minimum-interval delay. -/
def checkLimitsRest (cfg : RateLimitConfig) (s1 : RateLimiterState)
    (current_time t1 : ℚ) (est : Int) : RateLimiterState × ℚ :=
  let p2 := if cfg.requests_per_minute ≤ s1.request_count then
      windowSleep s1 current_time t1
    else (s1, t1)
  let p3 := if 0 < est ∧ cfg.tokens_per_minute < p2.1.token_count + est then
      windowSleep p2.1 current_time p2.2
    else p2
  ({ p3.1 with request_count := p3.1.request_count + 1,
               token_count := p3.1.token_count + est,
               last_request_time := p3.2 }, p3.2)

/-- `RateLimiter.check_limits` (lines 33-64).  Returns the updated state and
the clock value at which the request is admitted.  `current_time` is read
once at entry, exactly as in the source, so the window sleeps are computed
against the entry clock even after the minimum-interval sleep. -/
def checkLimits (cfg : RateLimitConfig) (s : RateLimiterState) (now : ℚ)
    (estimated_tokens : Int) : RateLimiterState × ℚ :=
  let current_time := now
  let s1 := resetIfNeeded s current_time
  let time_since_last := current_time - s1.last_request_time
  let t1 := if time_since_last < cfg.min_request_interval
    then current_time + (cfg.min_request_interval - time_since_last)
    else current_time
  checkLimitsRest cfg s1 current_time t1 estimated_tokens

/-!
## TokenTracker (app/services/token_tracker.py)

The tiktoken tokenizer is external; `count_tokens` is therefore passed in
as an opaque counting function `cnt : Str → Str → Nat` (text, model ↦
count).  The wall-clock timestamp and the stack-inspection fallback for
`function_name` are irrelevant to the tracked quantities and are omitted:
`trackUsage` receives the context label directly.
-/
structure TokenUsage where
  input_tokens : Nat
  output_tokens : Nat
  endpoint : Str
  model : Str
  function_name : Str
  deriving DecidableEq

structure TokenTrackerState where
  history : List TokenUsage
  running_input : Nat
  running_output : Nat
  deriving DecidableEq

def emptyTracker : TokenTrackerState := ⟨[], 0, 0⟩

structure ApiCall where
  input_text : Str
  output_text : Str
  model : Str
  endpoint : Str
  function_name : Str

/-- `TokenTracker.track_usage` (lines 47-87): count both texts, append a
`TokenUsage` record and bump the running totals. -/
def trackUsage (cnt : Str → Str → Nat) (st : TokenTrackerState) (c : ApiCall) :
    TokenTrackerState :=
  let it := cnt c.input_text c.model
  let ot := cnt c.output_text c.model
  { history := st.history ++ [⟨it, ot, c.endpoint, c.model, c.function_name⟩],
    running_input := st.running_input + it,
    running_output := st.running_output + ot }

/-- `TokenTracker.get_total_usage` (lines 93-107): fold the history,
optionally filtered by model; returns (input, output, total). -/
def getTotalUsage (st : TokenTrackerState) (model : Option Str) : Nat × Nat × Nat :=
  let filtered := st.history.filter fun u =>
    match model with
    | none => true
    | some m => u.model = m
  let ti := (filtered.map TokenUsage.input_tokens).sum
  let to2 := (filtered.map TokenUsage.output_tokens).sum
  (ti, to2, ti + to2)

def runTracker (cnt : Str → Str → Nat) (calls : List ApiCall) : TokenTrackerState :=
  calls.foldl (trackUsage cnt) emptyTracker

def callInputTokens (cnt : Str → Str → Nat) (c : ApiCall) : Nat :=
  cnt c.input_text c.model

def callOutputTokens (cnt : Str → Str → Nat) (c : ApiCall) : Nat :=
  cnt c.output_text c.model

/-!
## ClaudeWrapper and OpenAIWrapper (app/services/llm_factory.py)

The provider SDK call (`self.model.invoke` /
`client.chat.completions.create`) is modelled as an oracle
`invoke : payload → reply`; the filesystem (`open(...).read()` /
PyPDF2 text extraction) as `fs : path → contents`.  The base64 transport
encoding of the Claude document block and PyPDF2's per-page granularity are
content-preserving and are elided; the rate-limiter and token-tracker calls
affect timing/accounting only, not the payloads, and are modelled in their
own sections.
-/
structure PdfFileRef where
  file_path : Str
  deriving DecidableEq

inductive CPart where
  | document (data : Str)
  | text (s : Str)
  deriving DecidableEq

inductive MsgContent where
  | parts (l : List CPart)
  | plain (s : Str)
  deriving DecidableEq

structure PyMsg where
  role : Str
  content : MsgContent
  deriving DecidableEq

/-- The state of a `ClaudeWrapper` (lines 56-63 and inherited fields). -/
structure ClaudeState where
  file_contents : Option (List PdfFileRef)
  messages : List PyMsg
  first_call : Bool
  deriving DecidableEq

/-- Python truthiness of `self.file_contents` (`None` or `[]` are falsy). -/
def fileContentsTruthy : Option (List PdfFileRef) → Bool
  | none => false
  | some l => !l.isEmpty

def braceBalanced (s : Str) : Bool := s.count '\x7b' == s.count '\x7d'

def completionPrompt : Str :=
  "Please complete the JSON response. Return ONLY the complete JSON.".data

/-- Message construction of `ClaudeWrapper.get_response` (lines 66-95):
on the first call with truthy file contents, prepend one document block per
file, then the prompt text; mark `first_call` consumed. -/
def claudeAppendPrompt (fs : Str → Str) (st : ClaudeState) (prompt : Str) :
    ClaudeState :=
  if prompt.isEmpty then st
  else
    let docParts : List CPart :=
      if st.first_call && fileContentsTruthy st.file_contents then
        (st.file_contents.getD []).map fun f => CPart.document (fs f.file_path)
      else []
    let first2 := if st.first_call && fileContentsTruthy st.file_contents then
        false
      else st.first_call
    { st with
      messages := st.messages ++
        [⟨"user".data, .parts (docParts ++ [CPart.text prompt])⟩],
      first_call := first2 }

structure ClaudeCallResult where
  state : ClaudeState
  response : Str
  calls : List (List PyMsg)

/-- `ClaudeWrapper.get_response` (lines 65-146): append the user message,
invoke on the full accumulated history, append the assistant reply, and on
unbalanced braces issue exactly one continuation request (whose reply
replaces the response text but is not appended to the history).  `calls`
records each payload handed to the provider. -/
def claudeGetResponse (fs : Str → Str) (invoke : List PyMsg → Str)
    (st : ClaudeState) (prompt : Str) : ClaudeCallResult :=
  let st1 := claudeAppendPrompt fs st prompt
  let payload1 := st1.messages
  let r := invoke payload1
  let st2 := { st1 with messages := st1.messages ++ [⟨"assistant".data, .plain r⟩] }
  if braceBalanced r then ⟨st2, r, [payload1]⟩
  else
    let payload2 := st2.messages ++ [⟨"user".data, .parts [CPart.text completionPrompt]⟩]
    let r2 := invoke payload2
    ⟨st2, r2, [payload1, payload2]⟩

/-- The verification prompt of `LLMWrapper.set_file_contents` (lines 32-36). -/
def verificationPrompt : Str :=
  ("I\x27ve just shared some bank statements with you. \n" ++
   "        To verify you received them correctly:\n" ++
   "        1. How many pdfs did you receive?\n" ++
   "        2. Can you see any bank transaction data and returned fee and overdraft fee data?\n" ++
   "        Please be specific but brief.").data

/-- `LLMWrapper.set_file_contents` (lines 27-40) on a Claude session: store
the contents unconditionally, then fire the verification `get_response`. -/
def claudeSetFileContents (fs : Str → Str) (invoke : List PyMsg → Str)
    (st : ClaudeState) (contents : List PdfFileRef) : ClaudeState × Str :=
  let st1 := { st with file_contents := some contents }
  let r := claudeGetResponse fs invoke st1 verificationPrompt
  (r.state, r.response)

structure OMsg where
  role : Str
  content : Str
  deriving DecidableEq

/-- The state of an `OpenAIWrapper` (lines 246-254). -/
structure OpenAIState where
  file_contents : Option (List PdfFileRef)
  first_call : Bool
  pdf_content : Option Str
  deriving DecidableEq

def docHeader : Str := "Here are the bank statements:\n\n".data

/-- PyPDF2 text extraction loop (lines 265-271), per file. -/
def openaiExtractText (fs : Str → Str) (files : List PdfFileRef) : Str :=
  (files.map fun f => fs f.file_path ++ "\n\n".data).flatten

def pdfContentTruthy : Option Str → Bool
  | none => false
  | some s => !s.isEmpty

/-- Message construction of `OpenAIWrapper.get_response` (lines 261-293):
the message list is rebuilt from scratch on every call; the extracted
statement text is included on the first call and re-included from
`pdf_content` on every later call. -/
def openaiBuildMessages (fs : Str → Str) (st : OpenAIState) (prompt : Str) :
    List OMsg × OpenAIState :=
  let p :=
    if st.first_call && fileContentsTruthy st.file_contents then
      let ct := openaiExtractText fs (st.file_contents.getD [])
      if ct.isEmpty then
        (([] : List OMsg), { st with first_call := false })
      else
        ([⟨"user".data, docHeader ++ ct⟩],
         { st with first_call := false, pdf_content := some ct })
    else if pdfContentTruthy st.pdf_content then
      ([⟨"user".data, docHeader ++ st.pdf_content.getD []⟩], st)
    else ([], st)
  (p.1 ++ [⟨"user".data, prompt⟩], p.2)

structure OpenAICallResult where
  state : OpenAIState
  response : Str
  calls : List (List OMsg)

/-- `OpenAIWrapper.get_response` (lines 256-357): build the fresh message
list, invoke, and on unbalanced braces append the assistant reply plus the
completion prompt and invoke exactly once more. -/
def openaiGetResponse (fs : Str → Str) (invoke : List OMsg → Str)
    (st : OpenAIState) (prompt : Str) : OpenAICallResult :=
  if prompt.isEmpty then ⟨st, [], []⟩
  else
    let b := openaiBuildMessages fs st prompt
    let messages := b.1
    let st1 := b.2
    let r := invoke messages
    if braceBalanced r then ⟨st1, r, [messages]⟩
    else
      let messages2 := messages ++ [⟨"assistant".data, r⟩, ⟨"user".data, completionPrompt⟩]
      let r2 := invoke messages2
      ⟨st1, r2, [messages, messages2]⟩

/-- A sequence of `ask` calls against one Claude session, collecting every
provider payload. -/
def claudeRun (fs : Str → Str) (invoke : List PyMsg → Str) :
    ClaudeState → List Str → ClaudeState × List (List PyMsg)
  | st, [] => (st, [])
  | st, p :: ps =>
    let r := claudeGetResponse fs invoke st p
    let rest := claudeRun fs invoke r.state ps
    (rest.1, r.calls ++ rest.2)

def openaiRun (fs : Str → Str) (invoke : List OMsg → Str) :
    OpenAIState → List Str → OpenAIState × List (List OMsg)
  | st, [] => (st, [])
  | st, p :: ps =>
    let r := openaiGetResponse fs invoke st p
    let rest := openaiRun fs invoke r.state ps
    (rest.1, r.calls ++ rest.2)

def msgHasDoc (m : PyMsg) : Bool :=
  match m.content with
  | .parts l => l.any fun q => match q with | CPart.document _ => true | _ => false
  | .plain _ => false

/-- Does a serialized Claude payload contain a document attachment block? -/
def payloadHasDoc (payload : List PyMsg) : Bool := payload.any msgHasDoc

/-- Does a serialized OpenAI payload contain the statement-text message? -/
def opayloadHasDoc (payload : List OMsg) : Bool :=
  payload.any fun m => docHeader.isPrefixOf m.content

def fs0 : Str → Str := fun _ => "PDFBYTES".data

def invoke0 : List PyMsg → Str := fun _ => "ok".data

def oinvoke0 : List OMsg → Str := fun _ => "ok".data

/-- The OpenAI session is "document-ready" when either the first call is
still pending with attached files, or the first call has run and the
extracted text is cached. -/
def openaiDocReady (fps : List PdfFileRef) (st : OpenAIState) : Prop :=
  (st.first_call = true ∧ st.file_contents = some fps) ∨
  (st.first_call = false ∧ ∃ ct, st.pdf_content = some ct ∧ ct ≠ [])

/-- Oracle whose first reply and continuation reply are both
brace-unbalanced. -/
def invokeUnbalanced : List PyMsg → Str := fun _ => "\x7b\x7b".data

def oinvokeUnbalanced : List OMsg → Str := fun _ => "\x7b\x7b".data

/-!
## Python comparison semantics for json values

`extract_daily_balances` sorts parsed json values with `x['date']` keys and
deduplicates them through a `set`.  Python `==` is total (`1 == 1.0` and
`True == 1` hold; mismatched types compare unequal); `<` is partial —
strings compare lexicographically by code point, numbers (including bools)
numerically, lists elementwise via `==`/`<`, and everything else raises
`TypeError`.  One approximation: `dict == dict` is modelled as structural
equality of the parsed representation (CPython compares dicts by key set
and per-key `==`, order-insensitively); the two differ only when a sort key
is a list containing objects whose serialisations order keys differently.
-/
def boolRat (b : Bool) : ℚ := if b then 1 else 0

/-- Python `==` on json values. -/
def pyEqTotal : Json → Json → Bool
  | .null, .null => true
  | .bool a, .bool b => decide (a = b)
  | .bool a, .num _ q => decide (boolRat a = q)
  | .num _ p, .bool b => decide (p = boolRat b)
  | .num _ p, .num _ q => decide (p = q)
  | .str a, .str b => decide (a = b)
  | .arrNil, .arrNil => true
  | .arrCons x xs, .arrCons y ys => pyEqTotal x y && pyEqTotal xs ys
  | .objNil, .objNil => true
  | .objCons k v t, .objCons k2 v2 t2 =>
    decide (Json.objCons k v t = Json.objCons k2 v2 t2)
  | _, _ => false

/-- Python `<` on strings: lexicographic by code point. -/
def lexLt : Str → Str → Bool
  | [], [] => false
  | [], _ :: _ => true
  | _ :: _, [] => false
  | x :: xs, y :: ys => if x = y then lexLt xs ys else decide (x < y)

/-- Python `<` on json values (`TypeError` outside the comparable
combinations). -/
def pyLt : Json → Json → Except Str Bool
  | .str a, .str b => .ok (lexLt a b)
  | .bool a, .bool b => .ok (decide (boolRat a < boolRat b))
  | .bool a, .num _ q => .ok (decide (boolRat a < q))
  | .num _ p, .bool b => .ok (decide (p < boolRat b))
  | .num _ p, .num _ q => .ok (decide (p < q))
  | .arrNil, .arrNil => .ok false
  | .arrNil, .arrCons _ _ => .ok true
  | .arrCons _ _, .arrNil => .ok false
  | .arrCons x xs, .arrCons y ys =>
    if pyEqTotal x y then pyLt xs ys else pyLt x y
  | _, _ => .error "TypeError: unorderable types".data

def dateKey : Str := "date".data

def startKey : Str := "start_date".data

def endKey : Str := "end_date".data

/-- Ordering invariant on keyed entries: the later key is not strictly less
than the earlier one (non-descending; incomparable pairs never both appear
in a successful sort). -/
def leK (a b : Json × Json) : Prop := pyLt b.1 a.1 ≠ Except.ok true

/-- Insertion of one keyed entry into the sorted prefix, placing it after
any equal keys — the stable ordering CPython's `list.sort` computes. -/
def insertK (p : Json × Json) : List (Json × Json) →
    Except Str (List (Json × Json))
  | [] => .ok [p]
  | q :: rest =>
    match pyLt p.1 q.1 with
    | .error e => .error e
    | .ok true => .ok (p :: q :: rest)
    | .ok false =>
      match insertK p rest with
      | .error e => .error e
      | .ok r => .ok (q :: r)

/-- Stable sort by successive insertion (`list.sort(key=...)`). -/
def sortK : List (Json × Json) → List (Json × Json) →
    Except Str (List (Json × Json))
  | acc, [] => .ok acc
  | acc, p :: rest =>
    match insertK p acc with
    | .error e => .error e
    | .ok acc2 => sortK acc2 rest

/-- CPython's sort first materialises every key (`key=lambda x: x['date']`),
raising before any comparison if a key extraction fails. -/
def keyBy (key : Str) : List Json → Except Str (List (Json × Json))
  | [] => .ok []
  | b :: rest =>
    match pyGetItem b key with
    | .error e => .error e
    | .ok k =>
      match keyBy key rest with
      | .error e => .error e
      | .ok r => .ok ((k, b) :: r)

/-- Python `d in seen_set` (`TypeError` for unhashable values; equality on
the hashable ones is total `==`). -/
def pySetMem (d : Json) (seen : List Json) : Except Str Bool :=
  match d with
  | .arrNil => .error "TypeError: unhashable type".data
  | .arrCons _ _ => .error "TypeError: unhashable type".data
  | .objNil => .error "TypeError: unhashable type".data
  | .objCons _ _ _ => .error "TypeError: unhashable type".data
  | _ => .ok (seen.any fun s2 => pyEqTotal d s2)

/-- The duplicate-removal loop of `extract_daily_balances` (lines 320-326):
keep the first entry seen for each date. -/
def dedupByDate : List Json → List Json → Except Str (List Json)
  | _, [] => .ok []
  | seen, b :: rest =>
    match pyGetItem b dateKey with
    | .error e => .error e
    | .ok d =>
      match pySetMem d seen with
      | .error e => .error e
      | .ok true => dedupByDate seen rest
      | .ok false =>
        match dedupByDate (d :: seen) rest with
        | .error e => .error e
        | .ok r => .ok (b :: r)

/-- Entries in non-descending date order. -/
def dateSortedRel (a b : Json) : Prop :=
  ∀ ka kb, pyGetItem a dateKey = .ok ka → pyGetItem b dateKey = .ok kb →
    pyLt kb ka ≠ Except.ok true

/-- Entries with distinct dates (under Python `==`). -/
def dateDistinctRel (a b : Json) : Prop :=
  ∀ ka kb, pyGetItem a dateKey = .ok ka → pyGetItem b dateKey = .ok kb →
    pyEqTotal ka kb = false

/-!
## `extract_daily_balances` (analysis_tools.py lines 231-333)

Control flow modelled by `Except Str`: an uncaught exception anywhere in
the body lands in the outer `except`, which returns `{"daily_balances": []}`;
per-chunk exceptions are swallowed by the inner `try` (the chunk is
skipped).  The chunk responses of the module-level `_llm` are the oracle
`llm : Nat → Str` (response of the i-th chunk request).
-/
def dbKey : Str := "daily_balances".data

def contKey : Str := "continuity_data".data

def perKey : Str := "statement_periods".data

/-- `json.dumps({"daily_balances": []})`. -/
def emptyBalancesStr : Str :=
  pyDumps (Json.objCons dbKey Json.arrNil Json.objNil)

/-- Python `d.get(k, default)` (`AttributeError` on non-dicts). -/
def pyGetD (j : Json) (k : Str) (d : Json) : Except Str Json :=
  match j with
  | .objCons _ _ _ => .ok ((j.lookupKey k).getD d)
  | .objNil => .ok d
  | _ => .error "AttributeError: no attribute get".data

/-- `periods.sort(...)` exists only on lists (`AttributeError` otherwise). -/
def asListForSort (j : Json) : Except Str (List Json) :=
  match j with
  | .arrNil => .ok []
  | .arrCons _ _ => .ok j.toArrList
  | _ => .error "AttributeError: no attribute sort".data

/-- `range(0, len(periods), 2)` slicing `periods[i:i+2]`. -/
def chunks2 : List Json → List (List Json)
  | [] => []
  | [a] => [[a]]
  | a :: b :: rest => [a, b] :: chunks2 rest

/-- The chunk-response cleaning (lines 299-304): strip, cut after
"```json", cut before "```", strip. -/
def cleanVariantB (resp : Str) : Str :=
  let c0 := pyStrip resp
  let c1 := if hasSeq btJson c0 then (splitSeq btJson c0).getD 1 [] else c0
  let c2 := if hasSeq bt c1 then (splitSeq bt c1).headD [] else c1
  pyStrip c2

def Json.toObjList : Json → List (Str × Json)
  | .objCons k v t => (k, v) :: t.toObjList
  | _ => []

/-- Python `list.extend(x)` iterates lists, strings (characters) and dicts
(keys); anything else raises. -/
def pyExtendList (j : Json) : Except Str (List Json) :=
  match j with
  | .arrNil => .ok []
  | .arrCons _ _ => .ok j.toArrList
  | .str s => .ok (s.map fun c => Json.str [c])
  | .objNil => .ok []
  | .objCons _ _ _ => .ok (j.toObjList.map fun kv => Json.str kv.1)
  | _ => .error "TypeError: not iterable".data

/-- The inner `try` of one chunk (lines 294-311): clean, parse,
`chunk_data.get("daily_balances", [])`, extend. -/
def chunkInner (resp : Str) : Except Str (List Json) :=
  match jsonParse (cleanVariantB resp) with
  | .error e => .error e
  | .ok d =>
    match pyGetD d dbKey Json.arrNil with
    | .error e => .error e
    | .ok v => pyExtendList v

/-- The chunk loop (lines 254-315): the `chunk_start`/`chunk_end`
subscriptions happen outside the inner `try` (they abort the whole
function); the body's failures only skip the chunk. -/
def processChunks (llm : Nat → Str) : Nat → List (List Json) →
    Except Str (List Json)
  | _, [] => .ok []
  | i, ch :: rest =>
    match ch.head? with
    | none => .error "IndexError".data
    | some f =>
      match pyGetItem f startKey with
      | .error e => .error e
      | .ok _ =>
        match ch.getLast? with
        | none => .error "IndexError".data
        | some lp =>
          match pyGetItem lp endKey with
          | .error e => .error e
          | .ok _ =>
            let part := match chunkInner (llm i) with
              | .ok bs => bs
              | .error _ => []
            match processChunks llm (i + 1) rest with
            | .error e => .error e
            | .ok restParts => .ok (part ++ restParts)

/-- `all_balances.sort(key=lambda x: x['date'])`. -/
def sortByDate (l : List Json) : Except Str (List Json) :=
  match keyBy dateKey l with
  | .error e => .error e
  | .ok keyed =>
    match sortK [] keyed with
    | .error e => .error e
    | .ok sorted => .ok (sorted.map Prod.snd)

/-- Body of `extract_daily_balances`'s outer `try` (lines 234-328). -/
def edbCore (input_text : Str) (llm : Nat → Str) : Except Str Str :=
  match (if input_text = "None".data then Except.ok Json.objNil
         else jsonParse input_text) with
  | .error e => .error e
  | .ok input_data =>
    match pyGetD input_data contKey Json.objNil with
    | .error e => .error e
    | .ok continuity_data =>
      if pyFalsy continuity_data then .ok emptyBalancesStr
      else
        match pyGetD continuity_data perKey Json.arrNil with
        | .error e => .error e
        | .ok periods0 =>
          if pyFalsy periods0 then .ok emptyBalancesStr
          else
            match asListForSort periods0 with
            | .error e => .error e
            | .ok plist =>
              match keyBy startKey plist with
              | .error e => .error e
              | .ok keyedP =>
                match sortK [] keyedP with
                | .error e => .error e
                | .ok sortedP =>
                  match processChunks llm 0 (chunks2 (sortedP.map Prod.snd)) with
                  | .error e => .error e
                  | .ok all_balances =>
                    match sortByDate all_balances with
                    | .error e => .error e
                    | .ok sorted =>
                      match dedupByDate [] sorted with
                      | .error e => .error e
                      | .ok uniq =>
                        .ok (pyDumps (Json.objCons dbKey
                          (Json.arrOfList uniq) Json.objNil))

/-- `extract_daily_balances` as observed by its caller: the outer `except`
maps every failure to `{"daily_balances": []}`. -/
def extractDailyBalances (input_text : Str) (llm : Nat → Str) : Str :=
  match edbCore input_text llm with
  | .ok s => s
  | .error _ => emptyBalancesStr

example : cleanResponse ("Here you go:\n```json\n\x7b\"a\": 1, \"b\": 2\x7d\n```".data)
    = "\x7b\"a\": 1, \"b\": 2\x7d".data := by decide

example : cleanResponse ("```\n\x7b\"a\": 1\x7d\n```".data) = "\n\x7b\"a\": 1\x7d\n".data := by
  decide

theorem isPrefixOf_append_right {s t : Str} (r : Str) (h : s.isPrefixOf t = true) :
    s.isPrefixOf (t ++ r) = true := by
  induction s generalizing t with
  | nil => simp [List.isPrefixOf]
  | cons a as ih =>
    cases t with
    | nil => simp [List.isPrefixOf] at h
    | cons b bs =>
      simp only [List.isPrefixOf, Bool.and_eq_true] at h
      simp only [List.cons_append, List.isPrefixOf, Bool.and_eq_true]
      exact ⟨h.1, ih h.2⟩

theorem hasSeq_append_right {sep m : Str} (r : Str) (h : hasSeq sep m = true) :
    hasSeq sep (m ++ r) = true := by
  induction m with
  | nil =>
    simp only [hasSeq] at h
    have hsep : sep = [] := by
      cases sep with
      | nil => rfl
      | cons a as => simp [List.isPrefixOf] at h
    subst hsep
    cases r with
    | nil => simp [hasSeq, List.isPrefixOf]
    | cons c cs => simp [hasSeq, List.isPrefixOf]
  | cons c cs ih =>
    simp only [hasSeq, Bool.or_eq_true] at h
    rcases h with h | h
    · simp only [List.cons_append, hasSeq, Bool.or_eq_true]
      left
      have := isPrefixOf_append_right r h
      simpa using this
    · simp only [List.cons_append, hasSeq, Bool.or_eq_true]
      right
      exact ih h

theorem hasSeq_append_left (l : Str) {sep m : Str} (h : hasSeq sep m = true) :
    hasSeq sep (l ++ m) = true := by
  induction l with
  | nil => exact h
  | cons c cs ih =>
    simp only [List.cons_append, hasSeq, Bool.or_eq_true]
    right
    exact ih

/-- Absence of an occurrence is inherited by contiguous sub-segments. -/
theorem hasSeq_false_of_mid {sep l m r : Str} (h : hasSeq sep (l ++ m ++ r) = false) :
    hasSeq sep m = false := by
  by_contra hc
  have hm : hasSeq sep m = true := by
    cases hx : hasSeq sep m with
    | true => rfl
    | false => exact absurd hx hc
  have := hasSeq_append_left l (hasSeq_append_right r hm)
  rw [← List.append_assoc] at this
  rw [this] at h
  exact Bool.true_eq_false.mp h

theorem hasSeq_false_drop {sep xs : Str} (n : Nat) (h : hasSeq sep xs = false) :
    hasSeq sep (xs.drop n) = false := by
  have hsplit : xs = xs.take n ++ xs.drop n ++ [] := by
    simp [List.take_append_drop]
  exact hasSeq_false_of_mid (hsplit ▸ h)

theorem hasSeq_false_dropWhile {sep xs : Str} (p : Char → Bool)
    (h : hasSeq sep xs = false) : hasSeq sep (xs.dropWhile p) = false := by
  have hsplit : xs = xs.takeWhile p ++ xs.dropWhile p ++ [] := by
    simp [List.takeWhile_append_dropWhile]
  exact hasSeq_false_of_mid (hsplit ▸ h)

/-- `stripR xs` is an initial segment of `xs`. -/
theorem stripR_append_exists (xs : Str) : ∃ r, xs = stripR xs ++ r := by
  refine ⟨(xs.reverse.takeWhile pyWs).reverse, ?_⟩
  unfold stripR
  calc xs = (xs.reverse).reverse := by simp
    _ = (xs.reverse.takeWhile pyWs ++ xs.reverse.dropWhile pyWs).reverse := by
          rw [List.takeWhile_append_dropWhile]
    _ = (xs.reverse.dropWhile pyWs).reverse ++ (xs.reverse.takeWhile pyWs).reverse := by
          rw [List.reverse_append]

theorem hasSeq_false_stripR {sep xs : Str} (h : hasSeq sep xs = false) :
    hasSeq sep (stripR xs) = false := by
  obtain ⟨r, hr⟩ := stripR_append_exists xs
  have : stripR xs ++ r = [] ++ stripR xs ++ r := by simp
  rw [hr, this] at h
  exact hasSeq_false_of_mid h

theorem hasSeq_false_pyStrip {sep xs : Str} (h : hasSeq sep xs = false) :
    hasSeq sep (pyStrip xs) = false :=
  hasSeq_false_stripR (hasSeq_false_dropWhile pyWs h)

theorem dropWhile_dropWhile (p : Char → Bool) (l : Str) :
    (l.dropWhile p).dropWhile p = l.dropWhile p := by
  induction l with
  | nil => rfl
  | cons c cs ih =>
    by_cases h : p c = true
    · simp [List.dropWhile_cons, h, ih]
    · simp [List.dropWhile_cons, h]

theorem dropWhile_head_false {p : Char → Bool} {l : Str} {c : Char} {cs : Str}
    (h : l.dropWhile p = c :: cs) : p c = false := by
  induction l with
  | nil => simp at h
  | cons a as ih =>
    by_cases ha : p a = true
    · rw [List.dropWhile_cons, if_pos ha] at h
      exact ih h
    · rw [List.dropWhile_cons, if_neg ha] at h
      cases h
      simpa using ha

theorem stripR_stripR (xs : Str) : stripR (stripR xs) = stripR xs := by
  unfold stripR
  rw [List.reverse_reverse, dropWhile_dropWhile]

theorem stripL_stripL (xs : Str) : stripL (stripL xs) = stripL xs :=
  dropWhile_dropWhile pyWs xs

theorem stripL_stripR_stripL (xs : Str) :
    stripL (stripR (stripL xs)) = stripR (stripL xs) := by
  cases hy : stripR (stripL xs) with
  | nil => simp [stripL]
  | cons d ds =>
    obtain ⟨r, hr⟩ := stripR_append_exists (stripL xs)
    rw [hy] at hr
    have hd : pyWs d = false := by
      cases hL : stripL xs with
      | nil => rw [hL] at hr; simp at hr
      | cons e es =>
        have he : pyWs e = false := dropWhile_head_false hL
        have : e = d := by
          rw [hL] at hr
          exact (List.cons_eq_cons.mp hr).1
        rwa [this] at he
    simp [stripL, List.dropWhile_cons, hd]

theorem pyStrip_pyStrip (xs : Str) : pyStrip (pyStrip xs) = pyStrip xs := by
  unfold pyStrip
  rw [stripL_stripR_stripL, stripR_stripR]

/-- The first part produced by the splitter is an initial segment of the
input. -/
theorem splitSeqGo_head_append (sep : Str) (fuel : Nat) (xs : Str) :
    ∃ r, ((splitSeqGo sep fuel xs).headD []) ++ r = xs := by
  induction fuel generalizing xs with
  | zero =>
    cases xs with
    | nil => exact ⟨[], rfl⟩
    | cons c cs => exact ⟨[], by simp [splitSeqGo]⟩
  | succ fuel ih =>
    cases xs with
    | nil => exact ⟨[], rfl⟩
    | cons c cs =>
      by_cases h : sep.isPrefixOf (c :: cs) = true
      · exact ⟨c :: cs, by simp [splitSeqGo, h]⟩
      · obtain ⟨r, hr⟩ := ih cs
        cases hrec : splitSeqGo sep fuel cs with
        | nil => exact ⟨cs, by simp [splitSeqGo, h, hrec]⟩
        | cons p ps =>
          refine ⟨r, ?_⟩
          simp only [splitSeqGo, if_neg h, hrec]
          rw [hrec] at hr
          simp only [List.headD_cons] at hr ⊢
          rw [List.cons_append, hr]

/-- No part produced by the splitter contains an occurrence of the
separator (assuming a non-empty separator, as in the source). -/
theorem splitSeqGo_parts_hasSeq_false {sep : Str} (hsep : sep ≠ []) :
    ∀ fuel xs, xs.length ≤ fuel → ∀ p ∈ splitSeqGo sep fuel xs, hasSeq sep p = false := by
  have hnil' : sep.isPrefixOf ([] : Str) = false := by
    cases sep with
    | nil => exact absurd rfl hsep
    | cons a as => simp [List.isPrefixOf]
  have hnil : hasSeq sep [] = false := by simpa [hasSeq] using hnil'
  intro fuel
  induction fuel with
  | zero =>
    intro xs hlen p hp
    have hxs : xs = [] := List.length_eq_zero.mp (Nat.le_zero.mp hlen)
    subst hxs
    simp only [splitSeqGo, List.mem_singleton] at hp
    subst hp
    exact hnil
  | succ fuel ih =>
    intro xs hlen p hp
    cases xs with
    | nil =>
      simp only [splitSeqGo, List.mem_singleton] at hp
      subst hp
      exact hnil
    | cons c cs =>
      have hcs : cs.length ≤ fuel := by
        simpa using Nat.le_of_succ_le_succ hlen
      by_cases h : sep.isPrefixOf (c :: cs) = true
      · simp only [splitSeqGo, if_pos h, List.mem_cons] at hp
        rcases hp with hp | hp
        · subst hp; exact hnil
        · have hdroplen : ((c :: cs).drop sep.length).length ≤ fuel := by
            have h1 : 1 ≤ sep.length := by
              cases sep with
              | nil => exact absurd rfl hsep
              | cons a as => simp
            simp only [List.length_drop, List.length_cons]
            omega
          exact ih _ hdroplen p hp
      · cases hrec : splitSeqGo sep fuel cs with
        | nil =>
          simp only [splitSeqGo, if_neg h, hrec, List.mem_singleton] at hp
          subst hp
          simp only [hasSeq, hnil', Bool.or_false]
          cases hpre : sep.isPrefixOf [c] with
          | false => rfl
          | true =>
            have := isPrefixOf_append_right cs hpre
            simp only [List.cons_append, List.nil_append] at this
            exact absurd this h
        | cons q qs =>
          simp only [splitSeqGo, if_neg h, hrec, List.mem_cons] at hp
          rcases hp with hp | hp
          · subst hp
            have hq : hasSeq sep q = false :=
              ih cs hcs q (by rw [hrec]; exact List.mem_cons_self q qs)
            simp only [hasSeq, hq, Bool.or_false]
            cases hpre : sep.isPrefixOf (c :: q) with
            | false => rfl
            | true =>
              obtain ⟨r, hr⟩ := splitSeqGo_head_append sep fuel cs
              rw [hrec] at hr
              simp only [List.headD_cons] at hr
              have := isPrefixOf_append_right r hpre
              rw [List.cons_append, hr] at this
              exact absurd this h
          · exact ih cs hcs p (by rw [hrec]; exact List.mem_cons_of_mem q hp)

theorem splitSeq_parts_hasSeq_false {sep : Str} (hsep : sep ≠ []) (xs : Str) :
    ∀ p ∈ splitSeq sep xs, hasSeq sep p = false :=
  splitSeqGo_parts_hasSeq_false hsep xs.length xs (Nat.le_refl _)

theorem bt_ne_nil : bt ≠ [] := by decide

/-- Case analysis on the output of the cleaning transformation: either the
fence branch was not taken and the output is the stripped input, or the
output derives from the second split part. -/
theorem cleanResponse_eq_cases (x : Str) :
    (cleanResponse x = pyStrip x ∧
      (hasSeq bt (pyStrip x) = false ∨ (splitSeq bt (pyStrip x)).length < 3)) ∨
    (∃ c2 ∈ splitSeq bt (pyStrip x),
      cleanResponse x = c2 ∨ cleanResponse x = pyStrip (c2.drop 4)) := by
  simp only [cleanResponse]
  split
  next h1 =>
    split
    next h2 =>
      right
      have h1lt : 1 < (splitSeq bt (pyStrip x)).length := by omega
      refine ⟨(splitSeq bt (pyStrip x)).getD 1 [], ?_, ?_⟩
      · rw [List.getD_eq_getElem _ _ h1lt]
        exact List.getElem_mem h1lt
      · split
        next h3 => right; rfl
        next h3 => left; rfl
    next h2 => exact Or.inl ⟨rfl, Or.inr (by omega)⟩
  next h1 => exact Or.inl ⟨rfl, Or.inl (by simpa using h1)⟩

/-- Evaluating `cleanResponse` on a string whose stripped form is free of
fence markers just strips it. -/
theorem cleanResponse_of_hasSeq_false {y : Str} (h : hasSeq bt (pyStrip y) = false) :
    cleanResponse y = pyStrip y := by
  simp only [cleanResponse, h]
  simp

/-- C8 auxiliary: a second application of the cleaning transformation only
strips the surrounding whitespace of the first application's output. -/
theorem cleanResponse_cleanResponse (x : Str) :
    cleanResponse (cleanResponse x) = pyStrip (cleanResponse x) := by
  rcases cleanResponse_eq_cases x with ⟨hA, hcond⟩ | ⟨c2, hc2mem, hB | hB⟩
  · -- output is `pyStrip x`, and the fence branch was not taken
    rw [hA]
    simp only [cleanResponse]
    rw [pyStrip_pyStrip]
    rcases hcond with hcond | hcond
    · rw [hcond]
      simp
    · split
      next h1 =>
        split
        next h2 => omega
        next h2 => rfl
      next h1 => rfl
  · -- output is the raw fence part `c2`
    have hpart : hasSeq bt c2 = false := splitSeq_parts_hasSeq_false bt_ne_nil _ _ hc2mem
    rw [hB]
    exact cleanResponse_of_hasSeq_false (hasSeq_false_pyStrip hpart)
  · -- output is the stripped, tag-removed fence part
    have hpart : hasSeq bt c2 = false := splitSeq_parts_hasSeq_false bt_ne_nil _ _ hc2mem
    rw [hB]
    exact cleanResponse_of_hasSeq_false
      (hasSeq_false_pyStrip (hasSeq_false_pyStrip (hasSeq_false_drop 4 hpart)))

example : jsonParse "\x7b\"a\": 1, \"b\": 2\x7d".data =
    .ok (.objCons "a".data (.num true (mkRat 1 1))
      (.objCons "b".data (.num true (mkRat 2 1)) .objNil)) := by decide

example : (jsonParse "This is not JSON".data).isOk = false := by decide

example : jsonParse " [1, -2.5, \"x\\n\", true, null] ".data =
    .ok (Json.arrOfList [.num true (mkRat 1 1), .num false (mkRat (-5) 2), .str ['x', '\n'],
      .bool true, .null]) := by decide

example : pyDumps (.objCons "daily_balances".data .arrNil .objNil) =
    "\x7b\"daily_balances\": []\x7d".data := by decide

example : pyDumps (Json.arrOfList [.num true (mkRat 3 1), .num false (mkRat (-5) 2),
    .str ['a', '\n'], .bool true, .null]) = "[3, -2.5, \"a\\n\", true, null]".data := by decide

example : checkNsf "\x7b\"nsf_incidents\": [], \"total_fees\": 0, \"incident_count\": 0\x7d".data
    = "\x7b\"nsf_incidents\": [], \"total_fees\": 0, \"incident_count\": 0\x7d".data := by decide

example : checkNsf "This is not JSON".data
    = nsfErrorDefault ("Invalid JSON response: Expecting value".data) := by decide

/-- C9: on the raw input "Here you go:" + newline + a ```json fence line +
the body `{"a": 1, "b": 2}` + newline + closing fence, the repair/cleaning
transformation returns exactly the string `{"a": 1, "b": 2}` (which parses
as valid JSON). -/
theorem repair_markdown_fence_example :
    cleanResponse ("Here you go:\n```json\n\x7b\"a\": 1, \"b\": 2\x7d\n```".data)
      = "\x7b\"a\": 1, \"b\": 2\x7d".data ∧
    jsonParse (cleanResponse ("Here you go:\n```json\n\x7b\"a\": 1, \"b\": 2\x7d\n```".data))
      = .ok (Json.objOfList [("a".data, .num true (mkRat 1 1)),
          ("b".data, .num true (mkRat 2 1))]) := by
  constructor <;> decide

/-- C8 counterexample: on the raw input "```" + newline + `{"a": 1}` +
newline + "```", the cleaning succeeds (its output parses as JSON) but a
second application strips the surrounding newlines and returns a different
string, so the transformation is not idempotent as claimed. -/
theorem repair_not_idempotent_counterexample :
    (jsonParse (cleanResponse ("```\n\x7b\"a\": 1\x7d\n```".data))).isOk = true ∧
    cleanResponse (cleanResponse ("```\n\x7b\"a\": 1\x7d\n```".data))
      ≠ cleanResponse ("```\n\x7b\"a\": 1\x7d\n```".data) := by
  constructor <;> decide

/-- C8 amended: the repair/cleaning transformation is idempotent only up to
surrounding whitespace — a second application returns the
whitespace-stripped output (hence the output is unchanged exactly when it
carries no surrounding whitespace), and from the second application onward
nothing changes. -/
theorem repair_idempotent_up_to_strip (x : Str) :
    cleanResponse (cleanResponse x) = pyStrip (cleanResponse x) ∧
    cleanResponse (cleanResponse (cleanResponse x)) = cleanResponse (cleanResponse x) := by
  refine ⟨cleanResponse_cleanResponse x, ?_⟩
  calc cleanResponse (cleanResponse (cleanResponse x))
      = pyStrip (cleanResponse (cleanResponse x)) := cleanResponse_cleanResponse _
    _ = pyStrip (pyStrip (cleanResponse x)) := by rw [cleanResponse_cleanResponse x]
    _ = pyStrip (cleanResponse x) := pyStrip_pyStrip _
    _ = cleanResponse (cleanResponse x) := (cleanResponse_cleanResponse x).symm

/-- C4 counterexample: on the unparseable reply "This is not JSON",
`check_nsf` does not fail — it returns a zero-filled placeholder object
(empty incident list, zero fees, zero count) whose only diagnostic is the
parse-error message; the original raw text is not carried in the output. -/
theorem check_nsf_zero_fill_counterexample :
    checkNsf ("This is not JSON".data)
      = nsfErrorDefault ("Invalid JSON response: Expecting value".data) ∧
    hasSeq ("This is not JSON".data) (checkNsf ("This is not JSON".data)) = false := by
  constructor <;> decide

/-- C4 amended: on any non-empty reply whose cleaned form fails to parse as
JSON, `check_nsf` catches the internal `ValueError` and returns the
zero-filled placeholder carrying the parse-error message — the caller never
receives an error and never sees the original raw text surfaced as such. -/
theorem check_nsf_unparseable_returns_default (resp e : Str)
    (hne : resp ≠ []) (hparse : jsonParse (cleanResponse resp) = .error e) :
    checkNsf resp = nsfErrorDefault ("Invalid JSON response: ".data ++ e) := by
  have hempty : resp.isEmpty = false := by
    cases resp with
    | nil => exact absurd rfl hne
    | cons c cs => rfl
  unfold checkNsf checkNsfCore
  rw [hempty, hparse]
  simp

/-- Witness for `check_nsf_unparseable_returns_default` at the concrete
reply "oops". -/
theorem check_nsf_unparseable_returns_default_witness :
    checkNsf ("oops".data)
      = nsfErrorDefault ("Invalid JSON response: Expecting value".data) :=
  check_nsf_unparseable_returns_default ("oops".data) ("Expecting value".data)
    (by decide) (by decide)

theorem resetIfNeeded_nonneg {s : RateLimiterState} (t : ℚ)
    (h1 : 0 ≤ s.request_count) (h2 : 0 ≤ s.token_count) :
    0 ≤ (resetIfNeeded s t).request_count ∧ 0 ≤ (resetIfNeeded s t).token_count := by
  unfold resetIfNeeded
  split
  · exact ⟨le_refl 0, le_refl 0⟩
  · exact ⟨h1, h2⟩

theorem windowSleep_nonneg {s : RateLimiterState} (ct t : ℚ)
    (h1 : 0 ≤ s.request_count) (h2 : 0 ≤ s.token_count) :
    0 ≤ (windowSleep s ct t).1.request_count ∧ 0 ≤ (windowSleep s ct t).1.token_count := by
  simp only [windowSleep]
  split
  · exact resetIfNeeded_nonneg _ h1 h2
  · exact ⟨h1, h2⟩

theorem checkLimitsRest_nonneg (cfg : RateLimitConfig) (x : RateLimiterState)
    (ct t1 : ℚ) (est : Int) (hx1 : 0 ≤ x.request_count) (hx2 : 0 ≤ x.token_count)
    (he : 0 ≤ est) :
    0 ≤ (checkLimitsRest cfg x ct t1 est).1.request_count ∧
    0 ≤ (checkLimitsRest cfg x ct t1 est).1.token_count := by
  simp only [checkLimitsRest]
  split
  case isTrue hc =>
    have h2 := windowSleep_nonneg (s := x) ct t1 hx1 hx2
    split
    case isTrue hd =>
      have h3 := windowSleep_nonneg (s := (windowSleep x ct t1).1) ct
        ((windowSleep x ct t1).2) h2.1 h2.2
      refine ⟨?_, ?_⟩ <;> dsimp only <;> omega
    case isFalse hd =>
      refine ⟨?_, ?_⟩ <;> dsimp only <;> omega
  case isFalse hc =>
    split
    case isTrue hd =>
      have h3 := windowSleep_nonneg (s := x) ct t1 hx1 hx2
      refine ⟨?_, ?_⟩ <;> dsimp only <;> omega
    case isFalse hd =>
      refine ⟨?_, ?_⟩ <;> dsimp only <;> omega

/-- C3: with the request counter at (or past) its limit inside a live
window, the next `check_limits` call sleeps exactly to the window boundary,
resets the window there, and then proceeds: it is admitted at
`last_reset + 60` (never inside the old window) with the counters restarted
at this request (request count 1, token count `est`) and a fresh window
start.  The hypotheses say: the window is live (`0 ≤ now - last_reset < 60`),
the minimum-interval delay is already satisfied, and the token estimate is
non-negative and within the per-window token budget. -/
theorem rate_limiter_blocks_until_window_boundary
    (cfg : RateLimitConfig) (s : RateLimiterState) (now : ℚ) (est : Int)
    (hreq : cfg.requests_per_minute ≤ s.request_count)
    (hwin : now - s.last_reset < 60)
    (hw0 : 0 ≤ now - s.last_reset)
    (hmin : cfg.min_request_interval ≤ now - s.last_request_time)
    (hest0 : 0 ≤ est) (hestcap : est ≤ cfg.tokens_per_minute) :
    (checkLimits cfg s now est).2 = s.last_reset + 60 ∧
    (checkLimits cfg s now est).1.request_count = 1 ∧
    (checkLimits cfg s now est).1.token_count = est ∧
    (checkLimits cfg s now est).1.last_reset = s.last_reset + 60 := by
  have hnotreset : ¬ (60 : ℚ) ≤ now - s.last_reset := by linarith
  have hnotmin : ¬ now - s.last_request_time < cfg.min_request_interval := by linarith
  have hsleep : (0 : ℚ) < 60 - (now - s.last_reset) := by linarith
  have hboundary : (60 : ℚ) ≤ now + (60 - (now - s.last_reset)) - s.last_reset := by
    linarith
  have htok : ¬ (0 < est ∧ cfg.tokens_per_minute < (0 : Int) + est) := by
    rintro ⟨h1, h2⟩
    omega
  simp only [checkLimits, checkLimitsRest, windowSleep, resetIfNeeded,
    if_neg hnotreset, if_neg hnotmin, if_pos hreq, if_pos hsleep,
    if_pos hboundary, if_neg htok]
  refine ⟨by ring, by omega, by omega, by ring⟩

/-- Witness for `rate_limiter_blocks_until_window_boundary`: a limiter
configured for 2 requests per window, its counter already at 2 inside a
live window, admits the next request exactly at the window boundary
`last_reset + 60 = 70` with the counters restarted. -/
theorem rate_limiter_blocks_until_window_boundary_witness :
    (checkLimits ⟨2, 1000, 1⟩ ⟨20, 2, 300, 10⟩ 30 50).2 = 10 + 60 ∧
    (checkLimits ⟨2, 1000, 1⟩ ⟨20, 2, 300, 10⟩ 30 50).1.request_count = 1 ∧
    (checkLimits ⟨2, 1000, 1⟩ ⟨20, 2, 300, 10⟩ 30 50).1.token_count = 50 ∧
    (checkLimits ⟨2, 1000, 1⟩ ⟨20, 2, 300, 10⟩ 30 50).1.last_reset = 10 + 60 :=
  rate_limiter_blocks_until_window_boundary ⟨2, 1000, 1⟩ ⟨20, 2, 300, 10⟩ 30 50
    (by norm_num) (by norm_num) (by norm_num) (by norm_num) (by norm_num) (by norm_num)

/-- C6: window resets are all-or-nothing — `_reset_if_needed` either leaves
the state untouched or zeroes both counters together with a fresh window
start — and the counters never become negative: starting from non-negative
counters, any `check_limits` call with a non-negative token estimate (the
callers pass `int(len(...) * 1.3)`, 1000 or 2000, all non-negative) leaves
both counters non-negative. -/
theorem rate_limiter_counters_invariant :
    (∀ (s : RateLimiterState) (now : ℚ),
      resetIfNeeded s now = s ∨
      resetIfNeeded s now =
        { s with request_count := 0, token_count := 0, last_reset := now }) ∧
    (∀ (cfg : RateLimitConfig) (s : RateLimiterState) (now : ℚ) (est : Int),
      0 ≤ s.request_count → 0 ≤ s.token_count → 0 ≤ est →
      0 ≤ (checkLimits cfg s now est).1.request_count ∧
      0 ≤ (checkLimits cfg s now est).1.token_count) := by
  constructor
  · intro s now
    unfold resetIfNeeded
    split
    · exact Or.inr rfl
    · exact Or.inl rfl
  · intro cfg s now est hr ht he
    have h1 := resetIfNeeded_nonneg (s := s) now hr ht
    exact checkLimitsRest_nonneg cfg (resetIfNeeded s now) now _ est h1.1 h1.2 he

/-- Witness for the counter part of `rate_limiter_counters_invariant`. -/
theorem rate_limiter_counters_invariant_witness :
    0 ≤ (checkLimits ⟨5, 100, 1⟩ ⟨0, 3, 40, 0⟩ 12 7).1.request_count ∧
    0 ≤ (checkLimits ⟨5, 100, 1⟩ ⟨0, 3, 40, 0⟩ 12 7).1.token_count :=
  rate_limiter_counters_invariant.2 ⟨5, 100, 1⟩ ⟨0, 3, 40, 0⟩ 12 7
    (by norm_num) (by norm_num) (by norm_num)

theorem getTotalUsage_foldl (cnt : Str → Str → Nat) (model : Option Str) :
    ∀ (calls : List ApiCall) (st : TokenTrackerState),
    getTotalUsage (calls.foldl (trackUsage cnt) st) model =
      (let keep : ApiCall → Bool := fun c =>
        match model with
        | none => true
        | some m => c.model = m
       let kept := calls.filter keep
       let si := (kept.map (callInputTokens cnt)).sum
       let so := (kept.map (callOutputTokens cnt)).sum
       ((getTotalUsage st model).1 + si, (getTotalUsage st model).2.1 + so,
        (getTotalUsage st model).1 + si + ((getTotalUsage st model).2.1 + so))) := by
  intro calls
  induction calls with
  | nil =>
    intro st
    simp [getTotalUsage]
  | cons c rest ih =>
    intro st
    simp only [List.foldl_cons]
    rw [ih (trackUsage cnt st c)]
    have hstep : ∀ m2 : Option Str,
        (getTotalUsage (trackUsage cnt st c) m2).1 =
          (getTotalUsage st m2).1 +
            (if (match m2 with | none => true | some m => decide (c.model = m))
              then callInputTokens cnt c else 0) ∧
        (getTotalUsage (trackUsage cnt st c) m2).2.1 =
          (getTotalUsage st m2).2.1 +
            (if (match m2 with | none => true | some m => decide (c.model = m))
              then callOutputTokens cnt c else 0) := by
      intro m2
      simp only [getTotalUsage, trackUsage, List.filter_append, List.map_append,
        List.sum_append]
      cases m2 with
      | none => simp [callInputTokens, callOutputTokens]
      | some m =>
        by_cases hm : c.model = m
        · simp [List.filter, hm, callInputTokens, callOutputTokens]
        · simp [List.filter, hm]
    obtain ⟨hi, ho⟩ := hstep model
    cases model with
    | none =>
      simp only [List.filter_cons, hi, ho]
      simp [callInputTokens, callOutputTokens]
      try omega
    | some m =>
      by_cases hm : c.model = m
      · simp only [List.filter_cons, hi, ho, hm]
        simp [callInputTokens, callOutputTokens]
        try omega
      · simp only [List.filter_cons, hi, ho, hm]
        simp [callInputTokens, callOutputTokens, hm]
        try omega

/-- C7: after any sequence of `track_usage` calls on a fresh tracker, the
read-only `get_total_usage` query returns exactly the sums of the token
counts recorded by those calls — both unfiltered and filtered by any model
name (the query is a pure function of the state; it performs no
mutation). -/
theorem token_tracker_totals_exact (cnt : Str → Str → Nat) (calls : List ApiCall) :
    (getTotalUsage (runTracker cnt calls) none =
      ((calls.map (callInputTokens cnt)).sum,
       (calls.map (callOutputTokens cnt)).sum,
       (calls.map (callInputTokens cnt)).sum + (calls.map (callOutputTokens cnt)).sum)) ∧
    (∀ m : Str,
      getTotalUsage (runTracker cnt calls) (some m) =
        (((calls.filter fun c => c.model = m).map (callInputTokens cnt)).sum,
         ((calls.filter fun c => c.model = m).map (callOutputTokens cnt)).sum,
         ((calls.filter fun c => c.model = m).map (callInputTokens cnt)).sum +
           ((calls.filter fun c => c.model = m).map (callOutputTokens cnt)).sum)) := by
  constructor
  · have h := getTotalUsage_foldl cnt none calls emptyTracker
    simpa [runTracker, getTotalUsage, emptyTracker, List.filter_true] using h
  · intro m
    have h := getTotalUsage_foldl cnt (some m) calls emptyTracker
    simpa [runTracker, getTotalUsage, emptyTracker] using h

example :
    (claudeRun fs0 invoke0 ⟨some [⟨"a.pdf".data⟩], [], true⟩ ["q1".data, "q2".data]).2.length
      = 2 := by decide

example :
    payloadHasDoc ((claudeRun fs0 invoke0 ⟨some [⟨"a.pdf".data⟩], [], true⟩
      ["q1".data, "q2".data]).2.getD 1 []) = true := by decide

example :
    opayloadHasDoc ((openaiRun fs0 oinvoke0 ⟨some [⟨"a.pdf".data⟩], true, none⟩
      ["q1".data, "q2".data]).2.getD 1 []) = true := by decide

theorem claudeAppendPrompt_file_contents (fs : Str → Str) (st : ClaudeState)
    (p : Str) : (claudeAppendPrompt fs st p).file_contents = st.file_contents := by
  unfold claudeAppendPrompt
  split <;> rfl

theorem claudeGetResponse_file_contents (fs : Str → Str)
    (invoke : List PyMsg → Str) (st : ClaudeState) (p : Str) :
    (claudeGetResponse fs invoke st p).state.file_contents = st.file_contents := by
  simp only [claudeGetResponse]
  split <;> simp [claudeAppendPrompt_file_contents]

theorem payloadHasDoc_append_left {a : List PyMsg} (b : List PyMsg)
    (h : payloadHasDoc a = true) : payloadHasDoc (a ++ b) = true := by
  simp only [payloadHasDoc, List.any_append, Bool.or_eq_true]
  exact Or.inl h

/-- If the accumulated history already contains the document, every payload
of a further `get_response` contains it and the history keeps it. -/
theorem claudeGetResponse_doc_propagates (fs : Str → Str)
    (invoke : List PyMsg → Str) (st : ClaudeState) (p : Str)
    (h : payloadHasDoc st.messages = true) :
    payloadHasDoc (claudeGetResponse fs invoke st p).state.messages = true ∧
    ∀ payload ∈ (claudeGetResponse fs invoke st p).calls,
      payloadHasDoc payload = true := by
  have h1 : payloadHasDoc (claudeAppendPrompt fs st p).messages = true := by
    unfold claudeAppendPrompt
    split
    · exact h
    · exact payloadHasDoc_append_left _ h
  simp only [claudeGetResponse]
  split
  · refine ⟨payloadHasDoc_append_left _ h1, ?_⟩
    intro payload hp
    simp only [List.mem_singleton] at hp
    subst hp
    exact h1
  · refine ⟨payloadHasDoc_append_left _ h1, ?_⟩
    intro payload hp
    simp only [List.mem_cons, List.mem_singleton, List.not_mem_nil, or_false] at hp
    rcases hp with hp | hp <;> subst hp
    · exact h1
    · exact payloadHasDoc_append_left _ (payloadHasDoc_append_left _ h1)

/-- On the first `get_response` of a session with attached (non-empty) file
contents and a non-empty prompt, the document blocks enter the history, so
the first payload and all later ones contain them. -/
theorem claudeGetResponse_first_doc (fs : Str → Str)
    (invoke : List PyMsg → Str) (st : ClaudeState) (p : Str)
    (fps : List PdfFileRef) (hfc : st.file_contents = some fps) (hfps : fps ≠ [])
    (hfirst : st.first_call = true) (hp : p ≠ []) :
    payloadHasDoc (claudeAppendPrompt fs st p).messages = true := by
  have hne : p.isEmpty = false := by
    cases p with
    | nil => exact absurd rfl hp
    | cons c cs => rfl
  have htruthy : fileContentsTruthy st.file_contents = true := by
    rw [hfc]
    cases fps with
    | nil => exact absurd rfl hfps
    | cons f fsx => rfl
  unfold claudeAppendPrompt
  rw [hne]
  simp only [Bool.false_eq_true, if_false, hfirst, htruthy, Bool.and_self, if_pos]
  simp only [payloadHasDoc, List.any_append, Bool.or_eq_true]
  right
  simp only [List.any_cons, List.any_nil, Bool.or_false]
  simp only [msgHasDoc, hfc, Option.getD_some, List.any_append, Bool.or_eq_true]
  left
  cases fps with
  | nil => exact absurd rfl hfps
  | cons f fsx => simp [List.any_cons]

/-- C1 (amended), Claude side: starting from a fresh session with attached
non-empty file contents, every payload of every `ask` in a run contains the
document. -/
theorem claudeRun_all_payloads_have_doc (fs : Str → Str)
    (invoke : List PyMsg → Str) (fps : List PdfFileRef) (hfps : fps ≠ []) :
    ∀ (prompts : List Str) (st : ClaudeState),
      st.file_contents = some fps →
      (∀ p ∈ prompts, p ≠ []) →
      (st.first_call = true ∨ payloadHasDoc st.messages = true) →
      ∀ payload ∈ (claudeRun fs invoke st prompts).2, payloadHasDoc payload = true := by
  intro prompts
  induction prompts with
  | nil =>
    intro st _ _ _ payload hp
    simp [claudeRun] at hp
  | cons p ps ih =>
    intro st hfc hne hstart payload hp
    have hpne : p ≠ [] := hne p (List.mem_cons_self p ps)
    have hmsgs : payloadHasDoc (claudeAppendPrompt fs st p).messages = true := by
      rcases hstart with hfirst | hdoc
      · exact claudeGetResponse_first_doc fs invoke st p fps hfc hfps hfirst hpne
      · unfold claudeAppendPrompt
        split
        · exact hdoc
        · exact payloadHasDoc_append_left _ hdoc
    have hprop : payloadHasDoc (claudeGetResponse fs invoke st p).state.messages = true ∧
        ∀ q ∈ (claudeGetResponse fs invoke st p).calls, payloadHasDoc q = true := by
      constructor
      · simp only [claudeGetResponse]
        split <;> exact payloadHasDoc_append_left _ hmsgs
      · intro q hq
        simp only [claudeGetResponse] at hq
        split at hq
        · simp only [List.mem_singleton] at hq
          subst hq
          exact hmsgs
        · simp only [List.mem_cons, List.not_mem_nil, or_false] at hq
          rcases hq with hq | hq <;> subst hq
          · exact hmsgs
          · exact payloadHasDoc_append_left _ (payloadHasDoc_append_left _ hmsgs)
    simp only [claudeRun, List.mem_append] at hp
    rcases hp with hp | hp
    · exact hprop.2 payload hp
    · refine ih (claudeGetResponse fs invoke st p).state ?_ ?_ (Or.inr hprop.1) payload hp
      · rw [claudeGetResponse_file_contents, hfc]
      · intro q hq
        exact hne q (List.mem_cons_of_mem p hq)

theorem openaiExtractText_ne_nil (fs : Str → Str) (fps : List PdfFileRef)
    (hfps : fps ≠ []) : openaiExtractText fs fps ≠ [] := by
  cases fps with
  | nil => exact absurd rfl hfps
  | cons f fsx =>
    simp only [openaiExtractText, List.map_cons, List.flatten_cons]
    intro h
    rcases List.append_eq_nil.mp h with ⟨h1, h2⟩
    rcases List.append_eq_nil.mp h1 with ⟨h3, h4⟩
    simp at h4

theorem opayloadHasDoc_append_left {a : List OMsg} (b : List OMsg)
    (h : opayloadHasDoc a = true) : opayloadHasDoc (a ++ b) = true := by
  simp only [opayloadHasDoc, List.any_append, Bool.or_eq_true]
  exact Or.inl h

theorem opayloadHasDoc_header_msg (ct : Str) (rest : List OMsg) :
    opayloadHasDoc (⟨"user".data, docHeader ++ ct⟩ :: rest) = true := by
  simp only [opayloadHasDoc, List.any_cons, Bool.or_eq_true]
  left
  exact isPrefixOf_append_right ct (by
    induction docHeader with
    | nil => rfl
    | cons c cs ih => simp [List.isPrefixOf, ih])

theorem openaiBuildMessages_doc (fs : Str → Str) (fps : List PdfFileRef)
    (hfps : fps ≠ []) (st : OpenAIState) (p : Str)
    (hready : openaiDocReady fps st) :
    opayloadHasDoc (openaiBuildMessages fs st p).1 = true ∧
    openaiDocReady fps (openaiBuildMessages fs st p).2 := by
  rcases hready with ⟨hfirst, hfc⟩ | ⟨hfirst, ct, hct, hctne⟩
  · have htruthy : fileContentsTruthy st.file_contents = true := by
      rw [hfc]
      cases fps with
      | nil => exact absurd rfl hfps
      | cons f fsx => rfl
    have hext : openaiExtractText fs (st.file_contents.getD []) ≠ [] := by
      rw [hfc]
      exact openaiExtractText_ne_nil fs fps hfps
    have hextE : (openaiExtractText fs (st.file_contents.getD [])).isEmpty = false := by
      cases hx : openaiExtractText fs (st.file_contents.getD []) with
      | nil => exact absurd hx hext
      | cons c cs => rfl
    unfold openaiBuildMessages
    rw [hfirst, htruthy]
    simp only [Bool.and_self, if_pos, hextE, Bool.false_eq_true, if_false]
    exact ⟨opayloadHasDoc_header_msg _ _, Or.inr ⟨rfl, _, rfl, hext⟩⟩
  · have hfb : (st.first_call && fileContentsTruthy st.file_contents) = false := by
      rw [hfirst]
      rfl
    have htruthy : pdfContentTruthy st.pdf_content = true := by
      rw [hct]
      cases ct with
      | nil => exact absurd rfl hctne
      | cons c cs => rfl
    unfold openaiBuildMessages
    rw [hfb]
    simp only [Bool.false_eq_true, if_false, htruthy, if_pos]
    exact ⟨opayloadHasDoc_header_msg _ _, Or.inr ⟨hfirst, ct, hct, hctne⟩⟩

/-- C1 (amended), OpenAI side: starting from a document-ready session,
every payload of every `ask` in a run contains the statement-text
message. -/
theorem openaiRun_all_payloads_have_doc (fs : Str → Str)
    (invoke : List OMsg → Str) (fps : List PdfFileRef) (hfps : fps ≠ []) :
    ∀ (prompts : List Str) (st : OpenAIState),
      openaiDocReady fps st →
      (∀ p ∈ prompts, p ≠ []) →
      ∀ payload ∈ (openaiRun fs invoke st prompts).2, opayloadHasDoc payload = true := by
  intro prompts
  induction prompts with
  | nil =>
    intro st _ _ payload hp
    simp [openaiRun] at hp
  | cons p ps ih =>
    intro st hready hne payload hp
    have hpne : p ≠ [] := hne p (List.mem_cons_self p ps)
    have hpE : p.isEmpty = false := by
      cases p with
      | nil => exact absurd rfl hpne
      | cons c cs => rfl
    obtain ⟨hdoc, hready2⟩ := openaiBuildMessages_doc fs fps hfps st p hready
    have hcalls : (∀ q ∈ (openaiGetResponse fs invoke st p).calls,
        opayloadHasDoc q = true) ∧
        (openaiGetResponse fs invoke st p).state = (openaiBuildMessages fs st p).2 := by
      simp only [openaiGetResponse, hpE, Bool.false_eq_true, if_false]
      split
      · refine ⟨?_, rfl⟩
        intro q hq
        simp only [List.mem_singleton] at hq
        subst hq
        exact hdoc
      · refine ⟨?_, rfl⟩
        intro q hq
        simp only [List.mem_cons, List.not_mem_nil, or_false] at hq
        rcases hq with hq | hq <;> subst hq
        · exact hdoc
        · exact opayloadHasDoc_append_left _ hdoc
    simp only [openaiRun, List.mem_append] at hp
    rcases hp with hp | hp
    · exact hcalls.1 payload hp
    · refine ih (openaiGetResponse fs invoke st p).state ?_ ?_ payload hp
      · rw [hcalls.2]
        exact hready2
      · intro q hq
        exact hne q (List.mem_cons_of_mem p hq)

/-- C1 counterexample: a Claude session with one attached document, asked
two questions (both replies brace-balanced, so one provider call each):
the claim says the document is absent from the second call's payload, but
it is present — Claude replays the full history, document included, and
the OpenAI wrapper re-inserts the extracted text on every call. -/
theorem document_resent_on_second_call_counterexample :
    (claudeRun fs0 invoke0 ⟨some [⟨"a.pdf".data⟩], [], true⟩
        ["q1".data, "q2".data]).2.length = 2 ∧
    payloadHasDoc ((claudeRun fs0 invoke0 ⟨some [⟨"a.pdf".data⟩], [], true⟩
        ["q1".data, "q2".data]).2.getD 1 []) = true ∧
    (openaiRun fs0 oinvoke0 ⟨some [⟨"a.pdf".data⟩], true, none⟩
        ["q1".data, "q2".data]).2.length = 2 ∧
    opayloadHasDoc ((openaiRun fs0 oinvoke0 ⟨some [⟨"a.pdf".data⟩], true, none⟩
        ["q1".data, "q2".data]).2.getD 1 []) = true := by
  refine ⟨by decide, by decide, by decide, by decide⟩

/-- C1 amended: the document is attached to the session once (processed on
the first call only), but its content is included in the payload of EVERY
outbound call, not only the first: the Claude wrapper replays the full
history containing the document blocks, and the OpenAI wrapper re-inserts
the cached extracted text into every freshly built message list.  It is
never dropped. -/
theorem document_in_every_outbound_payload (fs : Str → Str)
    (invoke : List PyMsg → Str) (oinvoke : List OMsg → Str)
    (fps : List PdfFileRef) (prompts : List Str)
    (hfps : fps ≠ []) (hne : ∀ p ∈ prompts, p ≠ []) :
    (∀ payload ∈ (claudeRun fs invoke ⟨some fps, [], true⟩ prompts).2,
      payloadHasDoc payload = true) ∧
    (∀ payload ∈ (openaiRun fs oinvoke ⟨some fps, true, none⟩ prompts).2,
      opayloadHasDoc payload = true) :=
  ⟨claudeRun_all_payloads_have_doc fs invoke fps hfps prompts _ rfl hne (Or.inl rfl),
   openaiRun_all_payloads_have_doc fs oinvoke fps hfps prompts _
     (Or.inl ⟨rfl, rfl⟩) hne⟩

/-- Witness for `document_in_every_outbound_payload` at a concrete
two-question run: both the first and second payloads of both wrappers
contain the document. -/
theorem document_in_every_outbound_payload_witness :
    payloadHasDoc ((claudeRun fs0 invoke0 ⟨some [⟨"a.pdf".data⟩], [], true⟩
        ["q1".data, "q2".data]).2.getD 0 []) = true ∧
    opayloadHasDoc ((openaiRun fs0 oinvoke0 ⟨some [⟨"a.pdf".data⟩], true, none⟩
        ["q1".data, "q2".data]).2.getD 0 []) = true := by
  have h := document_in_every_outbound_payload fs0 invoke0 oinvoke0
    [⟨"a.pdf".data⟩] ["q1".data, "q2".data] (by decide) (by decide)
  exact ⟨h.1 _ (by decide), h.2 _ (by decide)⟩

/-- C2 counterexample: calling `set_file_contents` twice on a concrete
session does not fail — there is no `AlreadyAttached` error anywhere in the
code — and silently replaces the first attachment with the second. -/
theorem attach_document_silently_replaces_counterexample :
    ((claudeSetFileContents fs0 invoke0
        (claudeSetFileContents fs0 invoke0 ⟨none, [], true⟩
          [⟨"a.pdf".data⟩]).1 [⟨"b.pdf".data⟩]).1).file_contents
      = some [⟨"b.pdf".data⟩] ∧
    some [PdfFileRef.mk "b.pdf".data] ≠ some [PdfFileRef.mk "a.pdf".data] := by
  refine ⟨by decide, by decide⟩

/-- C2 amended: `set_file_contents` never raises: a second call on any
session (after any interleaving realisable as wrapper state) completes
normally and silently overwrites the stored file contents with its new
argument. -/
theorem attach_document_silently_replaces (fs : Str → Str)
    (invoke : List PyMsg → Str) (st : ClaudeState)
    (c1 c2 : List PdfFileRef) :
    ((claudeSetFileContents fs invoke
        (claudeSetFileContents fs invoke st c1).1 c2).1).file_contents = some c2 := by
  simp only [claudeSetFileContents]
  rw [claudeGetResponse_file_contents]

/-- C5: for any session state and any non-empty prompt, `get_response`
makes exactly one provider call when the first reply has balanced `{`/`}`
counts, and exactly two (one continuation) when it does not — regardless
of whether the continuation's reply is itself balanced; it never issues a
second continuation.  Stated for both the Claude and OpenAI wrappers. -/
theorem continuation_issued_exactly_once (fs : Str → Str)
    (invoke : List PyMsg → Str) (oinvoke : List OMsg → Str)
    (st : ClaudeState) (ost : OpenAIState) (p : Str) (hp : p ≠ []) :
    (claudeGetResponse fs invoke st p).calls.length =
      (if braceBalanced (invoke (claudeAppendPrompt fs st p).messages)
        then 1 else 2) ∧
    (openaiGetResponse fs oinvoke ost p).calls.length =
      (if braceBalanced (oinvoke (openaiBuildMessages fs ost p).1)
        then 1 else 2) := by
  have hpE : p.isEmpty = false := by
    cases p with
    | nil => exact absurd rfl hp
    | cons c cs => rfl
  constructor
  · simp only [claudeGetResponse]
    split <;> rfl
  · simp only [openaiGetResponse, hpE, Bool.false_eq_true, if_false]
    split <;> rfl

/-- Witness for `continuation_issued_exactly_once`: with an oracle whose
replies are always unbalanced, both wrappers make exactly two provider
calls — one continuation, even though the continuation reply is still
unbalanced. -/
theorem continuation_issued_exactly_once_witness :
    (claudeGetResponse fs0 invokeUnbalanced ⟨none, [], true⟩ "q".data).calls.length =
      (if braceBalanced (invokeUnbalanced
        (claudeAppendPrompt fs0 ⟨none, [], true⟩ "q".data).messages) then 1 else 2) ∧
    (openaiGetResponse fs0 oinvokeUnbalanced ⟨none, true, none⟩ "q".data).calls.length =
      (if braceBalanced (oinvokeUnbalanced
        (openaiBuildMessages fs0 ⟨none, true, none⟩ "q".data).1) then 1 else 2) :=
  continuation_issued_exactly_once fs0 invokeUnbalanced oinvokeUnbalanced
    ⟨none, [], true⟩ ⟨none, true, none⟩ "q".data (by decide)

example :
    (claudeGetResponse fs0 invokeUnbalanced ⟨none, [], true⟩ "q".data).calls.length = 2 := by
  decide

theorem boolRat_inj {a b : Bool} : boolRat a = boolRat b ↔ a = b := by
  cases a <;> cases b <;> simp [boolRat]

theorem pyEqTotal_symm : ∀ a b, pyEqTotal a b = pyEqTotal b a := by
  intro a
  induction a with
  | null => intro b; cases b <;> simp [pyEqTotal]
  | bool x => intro b; cases b <;> simp [pyEqTotal, eq_comm]
  | num i p => intro b; cases b <;> simp [pyEqTotal, eq_comm]
  | str sx => intro b; cases b <;> simp [pyEqTotal, eq_comm]
  | arrNil => intro b; cases b <;> simp [pyEqTotal]
  | arrCons x xs ihx ihxs =>
    intro b
    cases b <;> simp [pyEqTotal]
    rw [ihx, ihxs]
  | objNil => intro b; cases b <;> simp [pyEqTotal]
  | objCons k v t ihv iht =>
    intro b
    cases b <;> simp [pyEqTotal, eq_comm]

theorem pyEqTotal_trans : ∀ a b c, pyEqTotal a b = true → pyEqTotal b c = true →
    pyEqTotal a c = true := by
  intro a
  induction a with
  | null => intro b c h1 h2; cases b <;> cases c <;> simp_all [pyEqTotal]
  | bool x =>
    intro b c h1 h2
    cases b <;> cases c <;>
      simp only [pyEqTotal, decide_eq_true_eq, Bool.false_eq_true] at h1 h2 ⊢ <;>
      first
      | rfl
      | exact h1.trans h2
      | exact h1 ▸ h2
      | exact boolRat_inj.mp (h1.trans h2)
  | num i p =>
    intro b c h1 h2
    cases b <;> cases c <;>
      simp only [pyEqTotal, decide_eq_true_eq, Bool.false_eq_true] at h1 h2 ⊢ <;>
      first
      | rfl
      | exact h1.trans h2
      | exact h1 ▸ h2
      | exact h2 ▸ h1
  | str sx => intro b c h1 h2; cases b <;> cases c <;> simp_all [pyEqTotal]
  | arrNil => intro b c h1 h2; cases b <;> cases c <;> simp_all [pyEqTotal]
  | arrCons x xs ihx ihxs =>
    intro b c h1 h2
    cases b <;> cases c <;> simp_all [pyEqTotal]
    exact ⟨ihx _ _ h1.1 h2.1, ihxs _ _ h1.2 h2.2⟩
  | objNil => intro b c h1 h2; cases b <;> cases c <;> simp_all [pyEqTotal]
  | objCons k v t ihv iht =>
    intro b c h1 h2
    cases b <;> cases c <;> simp_all [pyEqTotal]

theorem decide_bool_eq_boolRat (a c : Bool) :
    decide (a = c) = decide (boolRat a = boolRat c) := by
  cases a <;> cases c <;> decide

/-- Python `==` is a congruence for `==` and `<`: equal values compare
identically against any third value. -/
theorem pyEqTotal_subst : ∀ x y, pyEqTotal x y = true →
    ∀ z, pyEqTotal x z = pyEqTotal y z ∧ pyLt x z = pyLt y z ∧
      pyLt z x = pyLt z y := by
  intro x
  induction x with
  | null =>
    intro y hxy z
    cases y <;> simp only [pyEqTotal, Bool.false_eq_true] at hxy
    exact ⟨rfl, rfl, rfl⟩
  | bool a =>
    intro y hxy z
    cases y <;> simp only [pyEqTotal, decide_eq_true_eq, Bool.false_eq_true] at hxy
    case bool b =>
      subst hxy
      exact ⟨rfl, rfl, rfl⟩
    case num j q =>
      cases z with
      | bool c =>
        refine ⟨?_, ?_, ?_⟩ <;> simp only [pyEqTotal, pyLt] <;> rw [← hxy]
        exact decide_bool_eq_boolRat a c
      | num j2 r =>
        refine ⟨?_, ?_, ?_⟩ <;> simp only [pyEqTotal, pyLt] <;> rw [← hxy]
      | null => exact ⟨rfl, rfl, rfl⟩
      | str sz => exact ⟨rfl, rfl, rfl⟩
      | arrNil => exact ⟨rfl, rfl, rfl⟩
      | arrCons z1 zs => exact ⟨rfl, rfl, rfl⟩
      | objNil => exact ⟨rfl, rfl, rfl⟩
      | objCons k3 v3 t3 => exact ⟨rfl, rfl, rfl⟩
  | num i p =>
    intro y hxy z
    cases y <;> simp only [pyEqTotal, decide_eq_true_eq, Bool.false_eq_true] at hxy
    case bool b =>
      cases z with
      | bool c =>
        refine ⟨?_, ?_, ?_⟩ <;> simp only [pyEqTotal, pyLt] <;> rw [hxy]
        exact (decide_bool_eq_boolRat b c).symm
      | num j2 r =>
        refine ⟨?_, ?_, ?_⟩ <;> simp only [pyEqTotal, pyLt] <;> rw [hxy]
      | null => exact ⟨rfl, rfl, rfl⟩
      | str sz => exact ⟨rfl, rfl, rfl⟩
      | arrNil => exact ⟨rfl, rfl, rfl⟩
      | arrCons z1 zs => exact ⟨rfl, rfl, rfl⟩
      | objNil => exact ⟨rfl, rfl, rfl⟩
      | objCons k3 v3 t3 => exact ⟨rfl, rfl, rfl⟩
    case num j q =>
      subst hxy
      cases z <;> exact ⟨rfl, rfl, rfl⟩
  | str sx =>
    intro y hxy z
    cases y <;> simp only [pyEqTotal, decide_eq_true_eq, Bool.false_eq_true] at hxy
    subst hxy
    exact ⟨rfl, rfl, rfl⟩
  | arrNil =>
    intro y hxy z
    cases y <;> simp only [pyEqTotal, Bool.false_eq_true] at hxy
    exact ⟨rfl, rfl, rfl⟩
  | arrCons x1 xs ihx ihxs =>
    intro y hxy z
    cases y <;> simp only [pyEqTotal, Bool.false_eq_true, Bool.and_eq_true] at hxy
    case arrCons y1 ys =>
      obtain ⟨hx, hxs⟩ := hxy
      have Hx := ihx y1 hx
      have Hxs := ihxs ys hxs
      cases z with
      | arrCons z1 zs =>
        refine ⟨?_, ?_, ?_⟩
        · simp only [pyEqTotal]
          rw [(Hx z1).1, (Hxs zs).1]
        · simp only [pyLt]
          rw [(Hx z1).1, (Hxs zs).2.1, (Hx z1).2.1]
        · simp only [pyLt]
          rw [pyEqTotal_symm z1 x1, (Hx z1).1, pyEqTotal_symm y1 z1,
            (Hxs zs).2.2, (Hx z1).2.2]
      | null => exact ⟨rfl, rfl, rfl⟩
      | bool c => exact ⟨rfl, rfl, rfl⟩
      | num j2 r => exact ⟨rfl, rfl, rfl⟩
      | str sz => exact ⟨rfl, rfl, rfl⟩
      | arrNil => exact ⟨rfl, rfl, rfl⟩
      | objNil => exact ⟨rfl, rfl, rfl⟩
      | objCons k3 v3 t3 => exact ⟨rfl, rfl, rfl⟩
  | objNil =>
    intro y hxy z
    cases y <;> simp only [pyEqTotal, Bool.false_eq_true] at hxy
    exact ⟨rfl, rfl, rfl⟩
  | objCons k v t ihv iht =>
    intro y hxy z
    cases y <;> simp only [pyEqTotal, decide_eq_true_eq, Bool.false_eq_true] at hxy
    case objCons k2 v2 t2 =>
      injection hxy with h1 h2 h3
      subst h1
      subst h2
      subst h3
      exact ⟨rfl, rfl, rfl⟩

theorem lexLt_asymm : ∀ a b, lexLt a b = true → lexLt b a = false := by
  intro a
  induction a with
  | nil => intro b h; cases b <;> simp_all [lexLt]
  | cons x xs ih =>
    intro b h
    cases b with
    | nil => simp [lexLt] at h
    | cons y ys =>
      simp only [lexLt] at h ⊢
      by_cases hxy : x = y
      · subst hxy
        rw [if_pos rfl] at h ⊢
        exact ih ys h
      · rw [if_neg hxy] at h
        have hlt : x < y := of_decide_eq_true h
        rw [if_neg (fun hyx => hxy hyx.symm)]
        simp [lt_asymm hlt]

theorem lexLt_trans : ∀ a b c, lexLt a b = true → lexLt b c = true →
    lexLt a c = true := by
  intro a
  induction a with
  | nil => intro b c h1 h2; cases b <;> cases c <;> simp_all [lexLt]
  | cons x xs ih =>
    intro b c h1 h2
    cases b with
    | nil => simp [lexLt] at h1
    | cons y ys =>
      cases c with
      | nil => simp [lexLt] at h2
      | cons z zs =>
        simp only [lexLt] at h1 h2 ⊢
        by_cases hxy : x = y <;> by_cases hyz : y = z
        · subst hxy; subst hyz
          rw [if_pos rfl] at h1 h2 ⊢
          exact ih ys zs h1 h2
        · subst hxy
          rw [if_pos rfl] at h1
          rw [if_neg hyz] at h2 ⊢
          exact h2
        · subst hyz
          rw [if_pos rfl] at h2
          rw [if_neg hxy] at h1 ⊢
          exact h1
        · rw [if_neg hxy] at h1
          rw [if_neg hyz] at h2
          have hlt : x < z := lt_trans (of_decide_eq_true h1) (of_decide_eq_true h2)
          rw [if_neg (ne_of_lt hlt)]
          exact decide_eq_true hlt

theorem pyLt_asymm : ∀ a b, pyLt a b = .ok true → pyLt b a = .ok false := by
  intro a
  induction a with
  | null => intro b h; cases b <;> simp [pyLt] at h
  | bool x =>
    intro b h
    cases b with
    | bool c =>
      simp only [pyLt, Except.ok.injEq, decide_eq_true_eq] at h
      simp only [pyLt, Except.ok.injEq]
      exact decide_eq_false (lt_asymm h)
    | num j q =>
      simp only [pyLt, Except.ok.injEq, decide_eq_true_eq] at h
      simp only [pyLt, Except.ok.injEq]
      exact decide_eq_false (lt_asymm h)
    | null => simp [pyLt] at h
    | str sz => simp [pyLt] at h
    | arrNil => simp [pyLt] at h
    | arrCons y ys => simp [pyLt] at h
    | objNil => simp [pyLt] at h
    | objCons k v t => simp [pyLt] at h
  | num i p =>
    intro b h
    cases b with
    | bool c =>
      simp only [pyLt, Except.ok.injEq, decide_eq_true_eq] at h
      simp only [pyLt, Except.ok.injEq]
      exact decide_eq_false (lt_asymm h)
    | num j q =>
      simp only [pyLt, Except.ok.injEq, decide_eq_true_eq] at h
      simp only [pyLt, Except.ok.injEq]
      exact decide_eq_false (lt_asymm h)
    | null => simp [pyLt] at h
    | str sz => simp [pyLt] at h
    | arrNil => simp [pyLt] at h
    | arrCons y ys => simp [pyLt] at h
    | objNil => simp [pyLt] at h
    | objCons k v t => simp [pyLt] at h
  | str sx =>
    intro b h
    cases b with
    | str sb =>
      simp only [pyLt, Except.ok.injEq] at h ⊢
      exact lexLt_asymm sx sb h
    | null => simp [pyLt] at h
    | bool c => simp [pyLt] at h
    | num j q => simp [pyLt] at h
    | arrNil => simp [pyLt] at h
    | arrCons y ys => simp [pyLt] at h
    | objNil => simp [pyLt] at h
    | objCons k v t => simp [pyLt] at h
  | arrNil =>
    intro b h
    cases b with
    | arrCons y ys => simp [pyLt]
    | arrNil => simp [pyLt] at h
    | null => simp [pyLt] at h
    | bool c => simp [pyLt] at h
    | num j q => simp [pyLt] at h
    | str sz => simp [pyLt] at h
    | objNil => simp [pyLt] at h
    | objCons k v t => simp [pyLt] at h
  | arrCons x xs ihx ihxs =>
    intro b h
    cases b with
    | arrCons y ys =>
      simp only [pyLt] at h ⊢
      by_cases he : pyEqTotal x y = true
      · rw [if_pos he] at h
        rw [if_pos (show pyEqTotal y x = true by rw [pyEqTotal_symm]; exact he)]
        exact ihxs ys h
      · rw [if_neg he] at h
        rw [if_neg (show ¬ pyEqTotal y x = true by
          rw [pyEqTotal_symm]; exact he)]
        exact ihx y h
    | arrNil => simp [pyLt] at h
    | null => simp [pyLt] at h
    | bool c => simp [pyLt] at h
    | num j q => simp [pyLt] at h
    | str sz => simp [pyLt] at h
    | objNil => simp [pyLt] at h
    | objCons k v t => simp [pyLt] at h
  | objNil => intro b h; cases b <;> simp [pyLt] at h
  | objCons k v t ihv iht => intro b h; cases b <;> simp [pyLt] at h

theorem pyLt_trans : ∀ a b c, pyLt a b = .ok true → pyLt b c = .ok true →
    pyLt a c = .ok true := by
  intro a
  induction a with
  | null => intro b c h1 h2; cases b <;> simp [pyLt] at h1
  | bool x =>
    intro b c h1 h2
    cases b with
    | bool y =>
      cases c with
      | bool z =>
        simp only [pyLt, Except.ok.injEq, decide_eq_true_eq] at h1 h2 ⊢
        exact lt_trans h1 h2
      | num j r =>
        simp only [pyLt, Except.ok.injEq, decide_eq_true_eq] at h1 h2 ⊢
        exact lt_trans h1 h2
      | null => simp [pyLt] at h2
      | str sz => simp [pyLt] at h2
      | arrNil => simp [pyLt] at h2
      | arrCons z zs => simp [pyLt] at h2
      | objNil => simp [pyLt] at h2
      | objCons k v t => simp [pyLt] at h2
    | num j q =>
      cases c with
      | bool z =>
        simp only [pyLt, Except.ok.injEq, decide_eq_true_eq] at h1 h2 ⊢
        exact lt_trans h1 h2
      | num j2 r =>
        simp only [pyLt, Except.ok.injEq, decide_eq_true_eq] at h1 h2 ⊢
        exact lt_trans h1 h2
      | null => simp [pyLt] at h2
      | str sz => simp [pyLt] at h2
      | arrNil => simp [pyLt] at h2
      | arrCons z zs => simp [pyLt] at h2
      | objNil => simp [pyLt] at h2
      | objCons k v t => simp [pyLt] at h2
    | null => simp [pyLt] at h1
    | str sz => simp [pyLt] at h1
    | arrNil => simp [pyLt] at h1
    | arrCons y ys => simp [pyLt] at h1
    | objNil => simp [pyLt] at h1
    | objCons k v t => simp [pyLt] at h1
  | num i p =>
    intro b c h1 h2
    cases b with
    | bool y =>
      cases c with
      | bool z =>
        simp only [pyLt, Except.ok.injEq, decide_eq_true_eq] at h1 h2 ⊢
        exact lt_trans h1 h2
      | num j r =>
        simp only [pyLt, Except.ok.injEq, decide_eq_true_eq] at h1 h2 ⊢
        exact lt_trans h1 h2
      | null => simp [pyLt] at h2
      | str sz => simp [pyLt] at h2
      | arrNil => simp [pyLt] at h2
      | arrCons z zs => simp [pyLt] at h2
      | objNil => simp [pyLt] at h2
      | objCons k v t => simp [pyLt] at h2
    | num j q =>
      cases c with
      | bool z =>
        simp only [pyLt, Except.ok.injEq, decide_eq_true_eq] at h1 h2 ⊢
        exact lt_trans h1 h2
      | num j2 r =>
        simp only [pyLt, Except.ok.injEq, decide_eq_true_eq] at h1 h2 ⊢
        exact lt_trans h1 h2
      | null => simp [pyLt] at h2
      | str sz => simp [pyLt] at h2
      | arrNil => simp [pyLt] at h2
      | arrCons z zs => simp [pyLt] at h2
      | objNil => simp [pyLt] at h2
      | objCons k v t => simp [pyLt] at h2
    | null => simp [pyLt] at h1
    | str sz => simp [pyLt] at h1
    | arrNil => simp [pyLt] at h1
    | arrCons y ys => simp [pyLt] at h1
    | objNil => simp [pyLt] at h1
    | objCons k v t => simp [pyLt] at h1
  | str sx =>
    intro b c h1 h2
    cases b with
    | str sy =>
      cases c with
      | str sz =>
        simp only [pyLt, Except.ok.injEq] at h1 h2 ⊢
        exact lexLt_trans sx sy sz h1 h2
      | null => simp [pyLt] at h2
      | bool z => simp [pyLt] at h2
      | num j r => simp [pyLt] at h2
      | arrNil => simp [pyLt] at h2
      | arrCons z zs => simp [pyLt] at h2
      | objNil => simp [pyLt] at h2
      | objCons k v t => simp [pyLt] at h2
    | null => simp [pyLt] at h1
    | bool y => simp [pyLt] at h1
    | num j q => simp [pyLt] at h1
    | arrNil => simp [pyLt] at h1
    | arrCons y ys => simp [pyLt] at h1
    | objNil => simp [pyLt] at h1
    | objCons k v t => simp [pyLt] at h1
  | arrNil =>
    intro b c h1 h2
    cases b with
    | arrCons y ys =>
      cases c with
      | arrCons z zs => simp [pyLt]
      | arrNil => simp [pyLt] at h2
      | null => simp [pyLt] at h2
      | bool z => simp [pyLt] at h2
      | num j r => simp [pyLt] at h2
      | str sz => simp [pyLt] at h2
      | objNil => simp [pyLt] at h2
      | objCons k v t => simp [pyLt] at h2
    | arrNil => simp [pyLt] at h1
    | null => simp [pyLt] at h1
    | bool y => simp [pyLt] at h1
    | num j q => simp [pyLt] at h1
    | str sy => simp [pyLt] at h1
    | objNil => simp [pyLt] at h1
    | objCons k v t => simp [pyLt] at h1
  | arrCons x xs ihx ihxs =>
    intro b c h1 h2
    cases b with
    | arrCons y ys =>
      cases c with
      | arrCons z zs =>
        simp only [pyLt] at h1 h2 ⊢
        by_cases hxy : pyEqTotal x y = true <;> by_cases hyz : pyEqTotal y z = true
        · rw [if_pos hxy] at h1
          rw [if_pos hyz] at h2
          rw [if_pos (pyEqTotal_trans x y z hxy hyz)]
          exact ihxs ys zs h1 h2
        · rw [if_pos hxy] at h1
          rw [if_neg hyz] at h2
          have Hs := pyEqTotal_subst x y hxy
          rw [if_neg (show ¬ pyEqTotal x z = true by rw [(Hs z).1]; exact hyz)]
          rw [(Hs z).2.1]
          exact h2
        · rw [if_neg hxy] at h1
          rw [if_pos hyz] at h2
          have Hs := pyEqTotal_subst y z hyz
          have hxz : ¬ pyEqTotal x z = true := by
            intro hc
            exact hxy (pyEqTotal_trans x z y hc
              (by rw [pyEqTotal_symm]; exact hyz))
          rw [if_neg hxz]
          rw [← (Hs x).2.2]
          exact h1
        · rw [if_neg hxy] at h1
          rw [if_neg hyz] at h2
          have hxz := ihx y z h1 h2
          have hne : ¬ pyEqTotal x z = true := by
            intro hc
            have hsub := (pyEqTotal_subst x z hc y).2.1
            rw [h1] at hsub
            have hzy := pyLt_asymm y z h2
            rw [hzy] at hsub
            exact absurd hsub (by simp)
          rw [if_neg hne]
          exact hxz
      | arrNil => simp [pyLt] at h2
      | null => simp [pyLt] at h2
      | bool z => simp [pyLt] at h2
      | num j r => simp [pyLt] at h2
      | str sz => simp [pyLt] at h2
      | objNil => simp [pyLt] at h2
      | objCons k v t => simp [pyLt] at h2
    | arrNil => simp [pyLt] at h1
    | null => simp [pyLt] at h1
    | bool y => simp [pyLt] at h1
    | num j q => simp [pyLt] at h1
    | str sy => simp [pyLt] at h1
    | objNil => simp [pyLt] at h1
    | objCons k v t => simp [pyLt] at h1
  | objNil => intro b c h1 h2; cases b <;> simp [pyLt] at h1
  | objCons k v t ihv iht => intro b c h1 h2; cases b <;> simp [pyLt] at h1

theorem insertK_spec : ∀ (l : List (Json × Json)) (p : Json × Json) (l2 : List (Json × Json)),
    insertK p l = .ok l2 → l.Pairwise leK →
    l2.Pairwise leK ∧ ∀ x ∈ l2, x = p ∨ x ∈ l := by
  intro l
  induction l with
  | nil =>
    intro p l2 h hp
    simp only [insertK, Except.ok.injEq] at h
    subst h
    refine ⟨List.pairwise_singleton _ _, ?_⟩
    intro x hx
    simp only [List.mem_singleton] at hx
    exact Or.inl hx
  | cons q rest ih =>
    intro p l2 h hp
    have hpc := List.pairwise_cons.mp hp
    simp only [insertK] at h
    cases hlt : pyLt p.1 q.1 with
    | error e => rw [hlt] at h; simp at h
    | ok bv =>
      rw [hlt] at h
      cases bv with
      | true =>
        simp only [Except.ok.injEq] at h
        subst h
        constructor
        · rw [List.pairwise_cons]
          refine ⟨?_, hp⟩
          intro x hx
          rcases List.mem_cons.mp hx with hx | hx
          · subst hx
            intro hc
            rw [pyLt_asymm _ _ hlt] at hc
            simp at hc
          · intro hc
            exact hpc.1 x hx (pyLt_trans _ _ _ hc hlt)
        · intro x hx
          rcases List.mem_cons.mp hx with hx | hx
          · exact Or.inl hx
          · exact Or.inr hx
      | false =>
        cases hrec : insertK p rest with
        | error e => rw [hrec] at h; simp at h
        | ok r =>
          rw [hrec] at h
          simp only [Except.ok.injEq] at h
          subst h
          obtain ⟨hrp, hrm⟩ := ih p r hrec hpc.2
          constructor
          · rw [List.pairwise_cons]
            refine ⟨?_, hrp⟩
            intro x hx
            rcases hrm x hx with hx | hx
            · subst hx
              intro hc
              rw [hlt] at hc
              simp at hc
            · exact hpc.1 x hx
          · intro x hx
            rcases List.mem_cons.mp hx with hx | hx
            · exact Or.inr (List.mem_cons.mpr (Or.inl hx))
            · rcases hrm x hx with h2 | h2
              · exact Or.inl h2
              · exact Or.inr (List.mem_cons.mpr (Or.inr h2))

theorem sortK_spec : ∀ (l acc out : List (Json × Json)),
    sortK acc l = .ok out → acc.Pairwise leK →
    out.Pairwise leK ∧ ∀ x ∈ out, x ∈ acc ∨ x ∈ l := by
  intro l
  induction l with
  | nil =>
    intro acc out h hacc
    simp only [sortK, Except.ok.injEq] at h
    subst h
    exact ⟨hacc, fun x hx => Or.inl hx⟩
  | cons p rest ih =>
    intro acc out h hacc
    simp only [sortK] at h
    cases hins : insertK p acc with
    | error e => rw [hins] at h; simp at h
    | ok acc2 =>
      rw [hins] at h
      obtain ⟨hp2, hm2⟩ := insertK_spec acc p acc2 hins hacc
      obtain ⟨hout, hmem⟩ := ih acc2 out h hp2
      refine ⟨hout, ?_⟩
      intro x hx
      rcases hmem x hx with hx2 | hx2
      · rcases hm2 x hx2 with h3 | h3
        · exact Or.inr (List.mem_cons.mpr (Or.inl h3))
        · exact Or.inl h3
      · exact Or.inr (List.mem_cons.mpr (Or.inr hx2))

theorem keyBy_inv : ∀ (key : Str) (l : List Json) (out : List (Json × Json)),
    keyBy key l = .ok out → ∀ pr ∈ out, pyGetItem pr.2 key = .ok pr.1 := by
  intro key l
  induction l with
  | nil =>
    intro out h pr hpr
    simp only [keyBy, Except.ok.injEq] at h
    subst h
    simp at hpr
  | cons b rest ih =>
    intro out h pr hpr
    simp only [keyBy] at h
    cases hget : pyGetItem b key with
    | error e => rw [hget] at h; simp at h
    | ok k =>
      rw [hget] at h
      cases hrec : keyBy key rest with
      | error e => rw [hrec] at h; simp at h
      | ok r =>
        rw [hrec] at h
        simp only [Except.ok.injEq] at h
        subst h
        rcases List.mem_cons.mp hpr with hpr | hpr
        · subst hpr
          exact hget
        · exact ih r hrec pr hpr

theorem pySetMem_val : ∀ (d : Json) (seen : List Json) (m : Bool),
    pySetMem d seen = .ok m → m = seen.any fun s2 => pyEqTotal d s2 := by
  intro d seen m h
  cases d with
  | null => simp only [pySetMem, Except.ok.injEq] at h; exact h.symm
  | bool b => simp only [pySetMem, Except.ok.injEq] at h; exact h.symm
  | num i q => simp only [pySetMem, Except.ok.injEq] at h; exact h.symm
  | str sx => simp only [pySetMem, Except.ok.injEq] at h; exact h.symm
  | arrNil => simp [pySetMem] at h
  | arrCons x xs => simp [pySetMem] at h
  | objNil => simp [pySetMem] at h
  | objCons k v t => simp [pySetMem] at h

theorem dedupByDate_spec : ∀ (l seen out : List Json),
    dedupByDate seen l = .ok out →
    out.Sublist l ∧
    (∀ b ∈ out, ∀ db, pyGetItem b dateKey = .ok db →
      ∀ s2 ∈ seen, pyEqTotal db s2 = false) ∧
    out.Pairwise dateDistinctRel := by
  intro l
  induction l with
  | nil =>
    intro seen out h
    simp only [dedupByDate, Except.ok.injEq] at h
    subst h
    exact ⟨List.nil_sublist _, by simp, List.Pairwise.nil⟩
  | cons b rest ih =>
    intro seen out h
    simp only [dedupByDate] at h
    cases hget : pyGetItem b dateKey with
    | error e => simp only [hget] at h; simp at h
    | ok d =>
      simp only [hget] at h
      cases hmem : pySetMem d seen with
      | error e => simp only [hmem] at h; simp at h
      | ok m =>
        simp only [hmem] at h
        cases m with
        | true =>
          obtain ⟨hs, hseen, hpw⟩ := ih seen out h
          exact ⟨hs.cons b, hseen, hpw⟩
        | false =>
          cases hrec : dedupByDate (d :: seen) rest with
          | error e => simp only [hrec] at h; simp at h
          | ok r =>
            simp only [hrec, Except.ok.injEq] at h
            subst h
            obtain ⟨hs, hseen, hpw⟩ := ih (d :: seen) r hrec
            have hany : (seen.any fun s2 => pyEqTotal d s2) = false :=
              (pySetMem_val d seen false hmem).symm
            have hfresh : ∀ s2 ∈ seen, pyEqTotal d s2 = false := by
              intro s2 hs2
              by_contra hc
              have : (seen.any fun s2 => pyEqTotal d s2) = true :=
                List.any_eq_true.mpr ⟨s2, hs2, by
                  cases hx : pyEqTotal d s2 with
                  | true => rfl
                  | false => exact absurd hx hc⟩
              rw [this] at hany
              exact Bool.true_eq_false.mp hany
            refine ⟨List.Sublist.cons₂ b hs, ?_, ?_⟩
            · intro x hx db hdb s2 hs2
              rcases List.mem_cons.mp hx with hx | hx
              · subst hx
                rw [hget] at hdb
                have hdd : d = db := Except.ok.inj hdb
                subst hdd
                exact hfresh s2 hs2
              · exact hseen x hx db hdb s2 (List.mem_cons.mpr (Or.inr hs2))
            · rw [List.pairwise_cons]
              refine ⟨?_, hpw⟩
              intro x hx ka kb hka hkb
              rw [hget] at hka
              have hka2 : d = ka := Except.ok.inj hka
              subst hka2
              have hkb2 := hseen x hx kb hkb d (List.mem_cons_self _ _)
              rw [pyEqTotal_symm]
              exact hkb2

/-- The sorted-then-deduplicated pipeline yields entries that are pairwise
in non-descending date order and pairwise date-distinct. -/
theorem pipeline_spec (allb sorted uniq : List Json)
    (hs : sortByDate allb = .ok sorted)
    (hd : dedupByDate [] sorted = .ok uniq) :
    uniq.Pairwise dateSortedRel ∧ uniq.Pairwise dateDistinctRel := by
  obtain ⟨hsub, _, hdist⟩ := dedupByDate_spec sorted [] uniq hd
  refine ⟨?_, hdist⟩
  have hsorted : sorted.Pairwise dateSortedRel := by
    simp only [sortByDate] at hs
    cases hk : keyBy dateKey allb with
    | error e => simp only [hk] at hs; simp at hs
    | ok keyed =>
      simp only [hk] at hs
      cases hsk : sortK [] keyed with
      | error e => simp only [hsk] at hs; simp at hs
      | ok skeyed =>
        simp only [hsk, Except.ok.injEq] at hs
        subst hs
        obtain ⟨hpw, hmem⟩ := sortK_spec keyed [] skeyed hsk List.Pairwise.nil
        have hinv := keyBy_inv dateKey allb keyed hk
        rw [List.pairwise_map]
        refine hpw.imp_of_mem ?_
        intro pa pb hpa hpb hle ka kb hka hkb
        have hmema : pa ∈ keyed := by
          rcases hmem pa hpa with h2 | h2
          · simp at h2
          · exact h2
        have hmemb : pb ∈ keyed := by
          rcases hmem pb hpb with h2 | h2
          · simp at h2
          · exact h2
        have hia := hinv pa hmema
        have hib := hinv pb hmemb
        rw [hia] at hka
        rw [hib] at hkb
        have e1 : pa.1 = ka := Except.ok.inj hka
        have e2 : pb.1 = kb := Except.ok.inj hkb
        rw [← e1, ← e2]
        exact hle
  exact hsorted.sublist hsub

theorem edbCore_ok_shape (input : Str) (llm : Nat → Str) (s : Str)
    (hcore : edbCore input llm = .ok s) :
    ∃ entries : List Json,
      s = pyDumps (Json.objCons dbKey (Json.arrOfList entries) Json.objNil) ∧
      entries.Pairwise dateSortedRel ∧ entries.Pairwise dateDistinctRel := by
  simp only [edbCore] at hcore
  cases h1 : (if input = "None".data then Except.ok Json.objNil
      else jsonParse input) with
  | error e => simp only [h1] at hcore; simp at hcore
  | ok input_data =>
    simp only [h1] at hcore
    cases h2 : pyGetD input_data contKey Json.objNil with
    | error e => simp only [h2] at hcore; simp at hcore
    | ok cd =>
      simp only [h2] at hcore
      by_cases h3 : pyFalsy cd = true
      · rw [if_pos h3] at hcore
        exact ⟨[], (Except.ok.inj hcore).symm, List.Pairwise.nil, List.Pairwise.nil⟩
      · rw [if_neg h3] at hcore
        cases h4 : pyGetD cd perKey Json.arrNil with
        | error e => simp only [h4] at hcore; simp at hcore
        | ok periods0 =>
          simp only [h4] at hcore
          by_cases h5 : pyFalsy periods0 = true
          · rw [if_pos h5] at hcore
            exact ⟨[], (Except.ok.inj hcore).symm, List.Pairwise.nil, List.Pairwise.nil⟩
          · rw [if_neg h5] at hcore
            cases h6 : asListForSort periods0 with
            | error e => simp only [h6] at hcore; simp at hcore
            | ok plist =>
              simp only [h6] at hcore
              cases h7 : keyBy startKey plist with
              | error e => simp only [h7] at hcore; simp at hcore
              | ok keyedP =>
                simp only [h7] at hcore
                cases h7b : sortK [] keyedP with
                | error e => simp only [h7b] at hcore; simp at hcore
                | ok sortedP =>
                  simp only [h7b] at hcore
                  cases h8 : processChunks llm 0 (chunks2 (sortedP.map Prod.snd)) with
                  | error e => simp only [h8] at hcore; simp at hcore
                  | ok allb =>
                    simp only [h8] at hcore
                    cases h9 : sortByDate allb with
                    | error e => simp only [h9] at hcore; simp at hcore
                    | ok sorted =>
                      simp only [h9] at hcore
                      cases h10 : dedupByDate [] sorted with
                      | error e => simp only [h10] at hcore; simp at hcore
                      | ok uniq =>
                        simp only [h10, Except.ok.injEq] at hcore
                        obtain ⟨hsorted, hdistinct⟩ := pipeline_spec allb sorted uniq h9 h10
                        exact ⟨uniq, hcore.symm, hsorted, hdistinct⟩

/-- C10: for every input and every sequence of chunk replies,
`extract_daily_balances` returns a serialized object whose
`daily_balances` list is pairwise in non-descending date order with
pairwise-distinct dates (the kept entry for each date is the first one of
the stably sorted list, by construction of `dedupByDate`); and on a "None"
input, an unparseable input, missing/empty continuity data or missing
statement periods it returns exactly `{"daily_balances": []}`. -/
theorem extract_daily_balances_sorted_unique :
    (∀ (input : Str) (llm : Nat → Str), ∃ entries : List Json,
      extractDailyBalances input llm =
        pyDumps (Json.objCons dbKey (Json.arrOfList entries) Json.objNil) ∧
      entries.Pairwise dateSortedRel ∧ entries.Pairwise dateDistinctRel) ∧
    (∀ llm : Nat → Str, extractDailyBalances "None".data llm = emptyBalancesStr) ∧
    (∀ llm : Nat → Str,
      extractDailyBalances "this is not json".data llm = emptyBalancesStr) ∧
    (∀ llm : Nat → Str,
      extractDailyBalances "\x7b\"continuity_data\": \x7b\x7d\x7d".data llm
        = emptyBalancesStr) ∧
    (∀ llm : Nat → Str,
      extractDailyBalances "\x7b\"continuity_data\": \x7b\"x\": 1\x7d\x7d".data llm
        = emptyBalancesStr) := by
  refine ⟨?_, fun llm => rfl, fun llm => rfl, fun llm => rfl, fun llm => rfl⟩
  intro input llm
  cases hcore : edbCore input llm with
  | error e =>
    refine ⟨[], ?_, List.Pairwise.nil, List.Pairwise.nil⟩
    unfold extractDailyBalances
    rw [hcore]
    rfl
  | ok s =>
    obtain ⟨entries, hshape, hsorted, hdistinct⟩ := edbCore_ok_shape input llm s hcore
    refine ⟨entries, ?_, hsorted, hdistinct⟩
    unfold extractDailyBalances
    rw [hcore, hshape]

end PdfExtractor
